import Mathlib

/- Shallow embedding of the FLAN protocol server (src/app.py).

   The embedding covers the state of `CuisineFlan` (ovens, orders, event
   history, SSE event queue, order counter), the HTTP handlers that mutate
   it (`prechauffage`, `commander`, `historique`, the SSE `events_stream`
   generator) and the background cooking task `simuler_cuisson`.

   Concurrency model: the server runs handlers and one `simuler_cuisson`
   thread per order.  Each handler body is modelled as one atomic step,
   except where the source suspends (`time.sleep` / `Queue.get`): the
   `prechauffage` handler is split into a start step and a finish step
   around its sleep, and `simuler_cuisson` is split into one step per
   pipeline stage plus a completion step, with the per-thread program
   counter stored in a `Tache` record.  The wall clock `time.time()` is
   modelled as a strictly increasing logical counter `now`, and the state
   carries a specification-only field `emis` recording the full emission
   sequence of events (the source appends every event to both the queue
   and the truncated history; `emis` is the untruncated sequence, used to
   state the FIFO-truncation properties). -/

/- A record of `cuisine.fours[four_id]` (src/app.py, CuisineFlan.__init__). -/
structure Four where
  id : String
  statut : String
  temperature : Nat
  commande_en_cours : Option String
deriving DecidableEq, Repr

/- One entry of `commande["etapes"]`: stage id, description, timestamp. -/
structure Etape where
  id : String
  description : String
  timestamp : Nat
deriving DecidableEq, Repr

/- A record of `cuisine.commandes[commande_id]` (src/app.py, commander). -/
structure Commande where
  id : String
  recette : String
  portions : Nat
  options : List (String × String)
  four_id : String
  statut : String
  progression : Nat
  etapes : List Etape
  debut : Nat
  fin : Option Nat
deriving DecidableEq, Repr

/- The `cuisson` table of a recipe (mode, temperature, duree). -/
structure Cuisson where
  mode : String
  temperature : Nat
  duree : String
deriving DecidableEq, Repr

/- One entry of `cuisine.recettes` (src/app.py, CuisineFlan.__init__).
   Ingredient quantities are kept as strings (the source mixes ints and
   strings in the same dict; none of the engine's logic reads them). -/
structure Recette where
  nom : String
  ingredients : List (String × String)
  cuisson : Cuisson
  emoji : String
deriving DecidableEq, Repr

/- Payload of an event, one constructor per `ajouter_event` call site.
   The `paquet` sub-dictionaries attached to the `prechauffage` and
   `commande` events are opaque presentation data and are elided. -/
inductive EventData where
  | erreurE (phase : String) (erreur : String)
  | prechauffageE (four_id : String) (temperature : Nat)
  | commandeE (commande_id : String) (recette : String)
  | progressionE (commande_id : String) (etape : String) (description : String) (progression : Nat)
  | termineE (commande_id : String) (duree_totale : Nat) (recette : String)
  | heartbeatE
deriving DecidableEq, Repr

/- An event as built by `CuisineFlan.ajouter_event`. -/
structure Event where
  type : String
  data : EventData
  timestamp : Nat
deriving DecidableEq, Repr

/- The background `simuler_cuisson` thread for one order: the captured
   `commande_id`, the immutable fields it reads after its loop
   (`commande["four_id"]`, `commande["recette"]`, `commande["debut"]`),
   and its program counter: `pc < 7` means the pc-th stage of the loop is
   next, `pc = 7` means the completion block after the loop is next,
   `pc = 8` means the thread has returned. -/
structure Tache where
  commande_id : String
  four_id : String
  recette : String
  debut : Nat
  pc : Nat
deriving DecidableEq, Repr

/- The whole mutable server state (class CuisineFlan) plus the running
   threads and the specification-only emission log. -/
structure Cuisine where
  fours : List (String × Four)
  commandes : List (String × Commande)
  historique : List Event
  events_queue : List Event
  compteur_commandes : Nat
  taches : List Tache
  now : Nat
  emis : List Event
deriving DecidableEq, Repr

/- Lookup in an insertion-ordered string-keyed dictionary (a Python dict
   is modelled as an association list in insertion order). -/
def dictGet {α : Type} (l : List (String × α)) (k : String) : Option α :=
  match l with
  | [] => none
  | (k', v) :: rest => if k' = k then some v else dictGet rest k

/- In-place update of every entry holding key `k` (a Python dict has at
   most one such entry; the update keeps insertion order, as mutating a
   dict value in Python does). -/
def dictUpdate {α : Type} (l : List (String × α)) (k : String) (f : α → α) :
    List (String × α) :=
  l.map (fun p => if p.1 = k then (p.1, f p.2) else p)

/- Python `d[k] = v`: overwrite in place if the key exists, else append. -/
def dictSet {α : Type} (l : List (String × α)) (k : String) (v : α) :
    List (String × α) :=
  if (dictGet l k).isSome then l.map (fun p => if p.1 = k then (k, v) else p)
  else l ++ [(k, v)]

/- The recipe catalog `cuisine.recettes` (src/app.py lines 182-207). -/
def recettes : List (String × Recette) :=
  [("flan_vanille",
     { nom := "Flan à la Vanille",
       ingredients := [("oeufs", "4"), ("lait", "500mL"), ("sucre", "100g"), ("vanille", "1 gousse")],
       cuisson := { mode := "bain-marie", temperature := 150, duree := "40min" },
       emoji := "🍮" }),
   ("flan_orange",
     { nom := "Flan à l\x27Orange",
       ingredients := [("oeufs", "4"), ("lait", "500mL"), ("sucre", "100g"), ("oranges", "2"), ("vanille", "1 gousse")],
       cuisson := { mode := "bain-marie", temperature := 150, duree := "45min" },
       emoji := "🍊" }),
   ("flan_chocolat",
     { nom := "Flan au Chocolat",
       ingredients := [("oeufs", "4"), ("lait", "500mL"), ("sucre", "80g"), ("chocolat", "150g")],
       cuisson := { mode := "bain-marie", temperature := 160, duree := "50min" },
       emoji := "🍫" }),
   ("flan_caramel",
     { nom := "Flan au Caramel",
       ingredients := [("oeufs", "6"), ("lait", "750mL"), ("sucre", "150g"), ("caramel", "100g")],
       cuisson := { mode := "bain-marie", temperature := 150, duree := "55min" },
       emoji := "🥧" })]

/- Zero padding of `f"{n:04d}"`: the decimal digits of `n`, left-padded
   with zeros to at least four characters. -/
def pad4 (n : Nat) : String :=
  if (Nat.repr n).length < 4 then
    String.mk (List.replicate (4 - (Nat.repr n).length) '0') ++ Nat.repr n
  else Nat.repr n

/- The order id produced by `nouvelle_commande_id` for counter value `n`:
   `f"CMD-{n:04d}"`. -/
def mkId (n : Nat) : String := "CMD-" ++ pad4 n

/- Initial state: three ovens `four_1`..`four_3`, all `disponible`
   (src/app.py lines 209-216), everything else empty. -/
def cuisineInit : Cuisine :=
  { fours :=
      [("four_1", { id := "four_1", statut := "disponible", temperature := 0, commande_en_cours := none }),
       ("four_2", { id := "four_2", statut := "disponible", temperature := 0, commande_en_cours := none }),
       ("four_3", { id := "four_3", statut := "disponible", temperature := 0, commande_en_cours := none })],
    commandes := [],
    historique := [],
    events_queue := [],
    compteur_commandes := 0,
    taches := [],
    now := 0,
    emis := [] }

/- CuisineFlan.trouver_four_disponible: first oven whose status is
   `disponible`, scanning in insertion order. -/
def trouver_four_disponible (c : Cuisine) : Option String :=
  (c.fours.find? (fun p => p.2.statut == "disponible")).map Prod.fst

/- CuisineFlan.ajouter_event: stamp the event, push it on the SSE queue,
   append it to the history and truncate the history to its last 100
   entries.  Also extends the specification-only emission log and
   advances the logical clock. -/
def ajouter_event (c : Cuisine) (ty : String) (d : EventData) : Cuisine :=
  let e : Event := { type := ty, data := d, timestamp := c.now }
  let h := c.historique ++ [e]
  { c with
    events_queue := c.events_queue ++ [e],
    historique := if h.length > 100 then h.drop (h.length - 100) else h,
    emis := c.emis ++ [e],
    now := c.now + 1 }

/- First half of the `prechauffage` handler, up to its `time.sleep(0.3)`:
   pick the first available oven (emitting an error event if none), mark
   it `prechauffage`, set its temperature, emit the `prechauffage` event. -/
def prechauffage_start (c : Cuisine) (temperature : Nat) : Cuisine :=
  match trouver_four_disponible c with
  | none => ajouter_event c "erreur" (.erreurE "prechauffage" "Tous les fours sont occupés")
  | some fid =>
      let c1 := { c with
        fours := dictUpdate c.fours fid
          (fun f => { f with statut := "prechauffage", temperature := temperature }) }
      ajouter_event c1 "prechauffage" (.prechauffageE fid temperature)

/- Second half of the `prechauffage` handler, after the sleep: the oven
   reserved by the first half is marked `pret`. -/
def prechauffage_finish (c : Cuisine) (fid : String) : Cuisine :=
  { c with fours := dictUpdate c.fours fid (fun f => { f with statut := "pret" }) }

/- Result of the `commander` handler, one constructor per return path. -/
inductive CommanderResult where
  | flanIntrouvable
  | cuisineFermee
  | fourOccupe (four_id : String)
  | flanCree (commande_id : String) (four_id : String)
deriving DecidableEq, Repr

/- Oven resolution of the `commander` handler (src/app.py lines 363-369):
   `four_id` models the request's optional oven id; Python's falsy test
   `not four_id` on a missing (or empty) value and the membership test
   `four_id not in cuisine.fours` both route to auto-selection, which the
   `Option` pattern and the `isSome` test reproduce.  The handler itself
   (below) returns the outcome together with the new state; on success
   the new state also holds the freshly spawned `simuler_cuisson` thread,
   as a `Tache` with pc = 0. -/
def resoudre_four (c : Cuisine) (four_id : Option String) : Option String :=
  match four_id with
  | some fid => if (dictGet c.fours fid).isSome then some fid else trouver_four_disponible c
  | none => trouver_four_disponible c

/- The `commander` handler (src/app.py lines 338-438), continued: see the
   comment above `resoudre_four` for lines 363-369. -/
def commander (c : Cuisine) (recette : String) (four_id : Option String)
    (portions : Nat) (options : List (String × String)) :
    CommanderResult × Cuisine :=
  if (dictGet recettes recette).isNone then
    (.flanIntrouvable,
     ajouter_event c "erreur" (.erreurE "commande" ("Recette inconnue: " ++ recette)))
  else
    match resoudre_four c four_id with
    | none => (.cuisineFermee, c)
    | some fid =>
      match dictGet c.fours fid with
      | none => (.cuisineFermee, c)
      | some f =>
        if f.statut ≠ "pret" ∧ f.statut ≠ "disponible" then
          (.fourOccupe fid, c)
        else
          let cid := mkId (c.compteur_commandes + 1)
          let cmd : Commande :=
            { id := cid, recette := recette, portions := portions, options := options,
              four_id := fid, statut := "en_preparation", progression := 0,
              etapes := [], debut := c.now, fin := none }
          let c1 := { c with
            compteur_commandes := c.compteur_commandes + 1,
            commandes := dictSet c.commandes cid cmd,
            fours := dictUpdate c.fours fid
              (fun g => { g with statut := "cuisson", commande_en_cours := some cid }),
            taches := c.taches ++ [{ commande_id := cid, four_id := fid,
                                     recette := recette, debut := c.now, pc := 0 }] }
          (.flanCree cid fid, ajouter_event c1 "commande" (.commandeE cid recette))

/- The fixed stage table of `simuler_cuisson` (src/app.py lines 447-455):
   stage id, description, progress checkpoint, simulated duration.  The
   durations are in tenths of a second (0.5 s becomes 5, and so on). -/
def etapes : List (String × String × Nat × Nat) :=
  [("rassemblement_ingredients", "📦 Rassemblement des ingrédients", 10, 5),
   ("caramelisation", "🍯 Caramélisation du moule", 25, 8),
   ("melange_appareil", "🥣 Mélange de l\x27appareil", 50, 6),
   ("versement", "🫗 Versement dans le moule", 60, 3),
   ("cuisson", "🔥 Cuisson au bain-marie", 85, 15),
   ("refroidissement", "❄️ Refroidissement", 95, 7),
   ("demoulage", "🍽️ Démoulage", 100, 4)]

/- The stage ids, in pipeline order. -/
def stageIds : List String := etapes.map (fun e => e.fst)

/- The progress checkpoints, in pipeline order. -/
def checkpoints : List Nat := etapes.map (fun e => e.snd.snd.fst)

/- The simulated stage durations `simuler_cuisson` sleeps for when it
   runs an order whose recipe is `r`.  The source's loop iterates the
   literal `etapes` table, so the result does not depend on `r`. -/
def pipelineDurations (_r : String) : List Nat := etapes.map (fun e => e.snd.snd.snd)

/- Stage number `pc` of the table (out-of-range accesses never happen in
   a run; the default is arbitrary). -/
def stageOf (pc : Nat) : String × String × Nat × Nat := etapes.getD pc ("", "", 0, 0)

/- Projections of a stage entry: id, description, checkpoint, duration. -/
def stageId (pc : Nat) : String := (stageOf pc).fst

/- Description of stage number `pc`. -/
def stageDesc (pc : Nat) : String := (stageOf pc).snd.fst

/- Progress checkpoint of stage number `pc`. -/
def stageProg (pc : Nat) : Nat := (stageOf pc).snd.snd.fst

/- Simulated duration of stage number `pc`. -/
def stageDuree (pc : Nat) : Nat := (stageOf pc).snd.snd.snd

/- Body of one iteration of the `for etape_id, ... in etapes` loop of
   `simuler_cuisson`, past its defensive membership check: set the
   order's status and progress to the stage's id and checkpoint, append
   the stage to `commande["etapes"]`, emit the `progression` event. -/
def majEtape (c : Cuisine) (t : Tache) : Commande → Commande := fun cmd =>
  { cmd with
    statut := stageId t.pc,
    progression := stageProg t.pc,
    etapes := cmd.etapes ++ [{ id := stageId t.pc, description := stageDesc t.pc, timestamp := c.now }] }

/- Continuation of the loop body: the three order mutations above, then
   the `progression` event. -/
def etape_body (c : Cuisine) (t : Tache) : Cuisine :=
  ajouter_event { c with commandes := dictUpdate c.commandes t.commande_id (majEtape c t) }
    "progression" (.progressionE t.commande_id (stageId t.pc) (stageDesc t.pc) (stageProg t.pc))

/- The block of `simuler_cuisson` after the loop (src/app.py lines
   478-493), which runs with no membership check: mark the captured order
   `termine` at progress 100 with its end time (a write that only lands
   in the table if the order is still there), release the captured oven
   if it is in the pool, emit the `termine` event. -/
def majFin (c : Cuisine) : Commande → Commande := fun cmd =>
  { cmd with statut := "termine", progression := 100, fin := some c.now }

/- Release of the captured oven in the completion block. -/
def majFour : Four → Four := fun f =>
  { f with statut := "disponible", commande_en_cours := none }

/- The completion block itself: the order write, the conditional oven
   release, the `termine` event. -/
def finir_cuisson (c : Cuisine) (t : Tache) : Cuisine :=
  let c1 := { c with commandes := dictUpdate c.commandes t.commande_id (majFin c) }
  let c2 :=
    if (dictGet c1.fours t.four_id).isSome then
      { c1 with fours := dictUpdate c1.fours t.four_id majFour }
    else c1
  ajouter_event c2 "termine" (.termineE t.commande_id (c.now - t.debut) t.recette)

/- One scheduling quantum of a `simuler_cuisson` thread: run the next
   stage iteration (whose defensive check exits the thread silently when
   the order has been removed), or the completion block, or nothing if
   the thread has already returned.  Returns the new state and the
   thread's new program counter. -/
def run_tache_aux (c : Cuisine) (t : Tache) : Cuisine × Tache :=
  if t.pc < 7 then
    if (dictGet c.commandes t.commande_id).isSome then
      (etape_body c t, { t with pc := t.pc + 1 })
    else (c, { t with pc := 8 })
  else if t.pc = 7 then
    (finir_cuisson c t, { t with pc := 8 })
  else (c, t)

/- Run one quantum of the i-th thread of the thread list. -/
def run_tache (c : Cuisine) (i : Nat) : Cuisine :=
  match c.taches.get? i with
  | none => c
  | some t =>
    let r := run_tache_aux c t
    { r.1 with taches := r.1.taches.set i r.2 }

/- One blocking `events_queue.get(timeout=30)` of an SSE subscriber
   (src/app.py, events_stream): deliver and remove the queue head, or
   yield a synthetic heartbeat (leaving the state unchanged) when the
   queue stays empty for the idle window. -/
def sse_get (c : Cuisine) : Event × Cuisine :=
  match c.events_queue with
  | [] => ({ type := "heartbeat", data := .heartbeatE, timestamp := c.now }, c)
  | e :: rest => (e, { c with events_queue := rest })

/- The `historique` handler (src/app.py lines 573-583) returns
   `cuisine.historique[-limit:]`; `pySliceFrom l s` models the Python
   slice `l[s:]` for an arbitrary integer start. -/
def pySliceFrom (l : List Event) (s : Int) : List Event :=
  if s < 0 then l.drop (l.length - min l.length (-s).toNat)
  else l.drop s.toNat

/- GET /api/flan/historique with query parameter `limit` (Flask parses it
   as an int, defaulting to 50 when absent or unparsable). -/
def historiqueEndpoint (c : Cuisine) (limit : Int) : List Event :=
  pySliceFrom c.historique (-limit)

/- The atomic steps of the server: each constructor is one handler body
   or one scheduling quantum of a background thread, interleaved in any
   order by the scheduler. -/
inductive Step : Cuisine → Cuisine → Prop where
  | pre_start (c : Cuisine) (temperature : Nat) :
      Step c (prechauffage_start c temperature)
  | pre_finish (c : Cuisine) (fid : String) (f : Four)
      (hf : dictGet c.fours fid = some f) (hs : f.statut = "prechauffage") :
      Step c (prechauffage_finish c fid)
  | cmd (c : Cuisine) (recette : String) (four_id : Option String)
      (portions : Nat) (options : List (String × String)) :
      Step c (commander c recette four_id portions options).2
  | tache (c : Cuisine) (i : Nat) : Step c (run_tache c i)
  | sse (c : Cuisine) : Step c (sse_get c).2

/- States reachable from server start. -/
def Reachable (c : Cuisine) : Prop := Relation.ReflTransGen Step cuisineInit c

/- The per-thread invariant data: progress of an order whose thread has
   program counter `pc`. -/
def progAt (pc : Nat) : Nat :=
  if pc = 0 then 0 else if pc ≤ 7 then stageProg (pc - 1) else 100

/- Status of an order whose thread has program counter `pc`. -/
def statutAt (pc : Nat) : String :=
  if pc = 0 then "en_preparation" else if pc ≤ 7 then stageId (pc - 1) else "termine"

/- The order ids allocated by the first `n` calls of
   `nouvelle_commande_id`. -/
def idsUpTo (n : Nat) : List String := (List.range n).map (fun i => mkId (i + 1))

/- The reachable-state invariant: oven keys are fixed; an oven is busy
   (`cuisson`) exactly when an order is bound to it; the history is a
   bounded suffix of the emission log; order keys and thread ids both
   list the allocated ids in order; and every thread's order is present
   with the status, progress and visited stages determined by the
   thread's program counter. -/
structure KitchenInv (c : Cuisine) : Prop where
  fourKeys : c.fours.map Prod.fst = ["four_1", "four_2", "four_3"]
  fourBound : ∀ p ∈ c.fours, ((p : String × Four).2.statut = "cuisson" ↔ p.2.commande_en_cours ≠ none)
  histLen : c.historique.length ≤ 100
  histSuffix : c.historique <:+ c.emis
  cmdKeys : c.commandes.map Prod.fst = idsUpTo c.compteur_commandes
  tacheIds : c.taches.map Tache.commande_id = idsUpTo c.compteur_commandes
  link : ∀ t ∈ c.taches, t.pc ≤ 8 ∧ ∃ cmd,
    dictGet c.commandes t.commande_id = some cmd ∧
    cmd.progression = progAt t.pc ∧
    cmd.statut = statutAt t.pc ∧
    cmd.etapes.map Etape.id = stageIds.take (min t.pc 7)

/- Concrete execution prefixes used to evaluate the model: one order of
   `flan_vanille` submitted with automatic oven selection. -/
def etatCommande : Cuisine := (commander cuisineInit "flan_vanille" none 1 []).2

/- The same execution after the order's thread has run all seven stage
   iterations (the last one being `demoulage`), with the completion block
   still pending. -/
def etatDemoulage : Cuisine :=
  run_tache (run_tache (run_tache (run_tache (run_tache (run_tache (run_tache etatCommande 0) 0) 0) 0) 0) 0) 0

/- The state `etatDemoulage` after the order has been removed from engine
   state by the environment (nothing in src/app.py ever removes an order;
   this models the removal hypothesised by the specification). -/
def etatRetire : Cuisine := { etatDemoulage with commandes := [] }

/- One more quantum of the order's thread, run after the removal: this
   executes the completion block of `simuler_cuisson`. -/
def etatApresRetrait : Cuisine := run_tache etatRetire 0

/- The initial state after one `prechauffage` start step (it emits one
   event, so the history is non-empty). -/
def etatPrechauffe : Cuisine := prechauffage_start cuisineInit 180

/- Decimal value of a digit character. -/
def chVal (ch : Char) : Nat := ch.toNat - 48

/- Numeric value of a decimal digit string (leading zeros are harmless,
   which is what makes it a left inverse of zero-padded printing). -/
def digitsVal (l : List Char) : Nat := l.foldl (fun a ch => 10 * a + chVal ch) 0

theorem toDigitsCore_append :
    ∀ (fuel n : Nat) (ds : List Char),
      Nat.toDigitsCore 10 fuel n ds = Nat.toDigitsCore 10 fuel n [] ++ ds := by
  intro fuel
  induction fuel with
  | zero => intro n ds; rfl
  | succ f ih =>
    intro n ds
    simp only [Nat.toDigitsCore]
    by_cases h : n / 10 = 0
    · simp [h]
    · simp only [h, if_false]
      rw [ih (n / 10) (Nat.digitChar (n % 10) :: ds), ih (n / 10) [Nat.digitChar (n % 10)]]
      simp

theorem toDigitsCore_fuel :
    ∀ (n f : Nat) (ds : List Char), n < f →
      Nat.toDigitsCore 10 f n ds = Nat.toDigitsCore 10 (n + 1) n ds := by
  intro n
  induction n using Nat.strong_induction_on with
  | _ n ih =>
    intro f ds hf
    obtain ⟨g, rfl⟩ : ∃ g, f = g + 1 := ⟨f - 1, by omega⟩
    simp only [Nat.toDigitsCore]
    by_cases h : n / 10 = 0
    · simp [h]
    · simp only [h, if_false]
      have h10 : 10 ≤ n := by omega
      have hlt : n / 10 < n := by omega
      rw [ih (n / 10) hlt g _ (by omega), ih (n / 10) hlt n _ (by omega)]

theorem digitsVal_concat (l : List Char) (d : Char) :
    digitsVal (l ++ [d]) = 10 * digitsVal l + chVal d := by
  simp [digitsVal, List.foldl_append]

theorem chVal_digitChar (m : Nat) (hm : m < 10) : chVal (Nat.digitChar m) = m := by
  interval_cases m <;> decide

theorem digitsVal_toDigits : ∀ n : Nat, digitsVal (Nat.toDigits 10 n) = n := by
  intro n
  induction n using Nat.strong_induction_on with
  | _ n ih =>
    by_cases h : n / 10 = 0
    · have hn : n < 10 := by omega
      simp only [Nat.toDigits, Nat.toDigitsCore, h, if_true]
      have hm : n % 10 = n := Nat.mod_eq_of_lt hn
      simp [digitsVal, hm, chVal_digitChar n hn]
    · have h10 : 10 ≤ n := by omega
      have hlt : n / 10 < n := by omega
      simp only [Nat.toDigits, Nat.toDigitsCore, h, if_false]
      rw [toDigitsCore_fuel (n / 10) n _ (by omega), toDigitsCore_append]
      rw [show Nat.toDigitsCore 10 (n / 10 + 1) (n / 10) [] = Nat.toDigits 10 (n / 10) from rfl]
      rw [digitsVal_concat, ih (n / 10) hlt, chVal_digitChar _ (Nat.mod_lt n (by omega))]
      have := Nat.div_add_mod n 10
      omega

theorem digitsVal_replicate_zero (k : Nat) (l : List Char) :
    digitsVal (List.replicate k '0' ++ l) = digitsVal l := by
  induction k with
  | zero => simp
  | succ k ih =>
    rw [List.replicate_succ, List.cons_append]
    show List.foldl _ (10 * 0 + chVal '0') _ = _
    rw [show 10 * 0 + chVal '0' = 0 from by decide]
    exact ih

theorem digitsVal_pad4 (n : Nat) : digitsVal (pad4 n).data = n := by
  unfold pad4
  by_cases h : (Nat.repr n).length < 4
  · simp only [h, if_true, String.data_append]
    rw [digitsVal_replicate_zero]
    rw [show (Nat.repr n).data = Nat.toDigits 10 n from rfl]
    exact digitsVal_toDigits n
  · simp only [h, if_false]
    rw [show (Nat.repr n).data = Nat.toDigits 10 n from rfl]
    exact digitsVal_toDigits n

theorem mkId_inj {a b : Nat} (h : mkId a = mkId b) : a = b := by
  have hd := congrArg String.data h
  simp only [mkId, String.data_append] at hd
  have hp : (pad4 a).data = (pad4 b).data := List.append_cancel_left hd
  have hv := congrArg digitsVal hp
  rwa [digitsVal_pad4, digitsVal_pad4] at hv

theorem idsUpTo_succ (n : Nat) : idsUpTo (n + 1) = idsUpTo n ++ [mkId (n + 1)] := by
  simp [idsUpTo, List.range_succ]

theorem mem_idsUpTo {k : String} {n : Nat} :
    k ∈ idsUpTo n ↔ ∃ i, i < n ∧ k = mkId (i + 1) := by
  simp only [idsUpTo, List.mem_map, List.mem_range]
  constructor
  · rintro ⟨i, hi, rfl⟩; exact ⟨i, hi, rfl⟩
  · rintro ⟨i, hi, rfl⟩; exact ⟨i, hi, rfl⟩

theorem mkId_not_mem_idsUpTo (n : Nat) : mkId (n + 1) ∉ idsUpTo n := by
  rw [mem_idsUpTo]
  rintro ⟨i, hi, hEq⟩
  have := mkId_inj hEq
  omega

theorem idsUpTo_nodup (n : Nat) : (idsUpTo n).Nodup := by
  refine List.Nodup.map ?_ (List.nodup_range n)
  intro a b hab
  have := mkId_inj hab
  omega

theorem dictGet_nil {α : Type} (k : String) : dictGet ([] : List (String × α)) k = none := rfl

theorem dictGet_cons {α : Type} (a : String) (v : α) (rest : List (String × α)) (k : String) :
    dictGet ((a, v) :: rest) k = if a = k then some v else dictGet rest k := rfl

theorem dictUpdate_cons {α : Type} (a : String) (v : α) (rest : List (String × α))
    (k : String) (f : α → α) :
    dictUpdate ((a, v) :: rest) k f
      = (if a = k then (a, f v) else (a, v)) :: dictUpdate rest k f := by
  by_cases h : a = k
  · simp only [dictUpdate, List.map_cons, if_pos h]
  · simp only [dictUpdate, List.map_cons, if_neg h]

theorem dictGet_update_self {α : Type} (l : List (String × α)) (k : String) (f : α → α) :
    dictGet (dictUpdate l k f) k = (dictGet l k).map f := by
  induction l with
  | nil => rfl
  | cons p rest ih =>
    obtain ⟨a, v⟩ := p
    rw [dictUpdate_cons]
    by_cases h : a = k
    · rw [if_pos h, dictGet_cons, dictGet_cons, if_pos h, if_pos h]
      rfl
    · rw [if_neg h, dictGet_cons, dictGet_cons, if_neg h, if_neg h]
      exact ih

theorem dictGet_update_ne {α : Type} (l : List (String × α)) (k q : String) (f : α → α)
    (h : q ≠ k) : dictGet (dictUpdate l k f) q = dictGet l q := by
  induction l with
  | nil => rfl
  | cons p rest ih =>
    obtain ⟨a, v⟩ := p
    rw [dictUpdate_cons]
    by_cases ha : a = k
    · have haq : a ≠ q := fun hq => h (hq ▸ ha)
      rw [if_pos ha, dictGet_cons, dictGet_cons, if_neg haq, if_neg haq]
      exact ih
    · rw [if_neg ha, dictGet_cons, dictGet_cons]
      by_cases hq : a = q
      · rw [if_pos hq, if_pos hq]
      · rw [if_neg hq, if_neg hq]
        exact ih

theorem dictUpdate_keys {α : Type} (l : List (String × α)) (k : String) (f : α → α) :
    (dictUpdate l k f).map Prod.fst = l.map Prod.fst := by
  induction l with
  | nil => rfl
  | cons p rest ih =>
    obtain ⟨a, v⟩ := p
    rw [dictUpdate_cons]
    by_cases h : a = k
    · rw [if_pos h, List.map_cons, List.map_cons, ih]
    · rw [if_neg h, List.map_cons, List.map_cons, ih]

theorem dictGet_append_some {α : Type} {l m : List (String × α)} {k : String} {v : α}
    (h : dictGet l k = some v) : dictGet (l ++ m) k = some v := by
  induction l with
  | nil => rw [dictGet_nil] at h; cases h
  | cons p rest ih =>
    obtain ⟨a, w⟩ := p
    rw [dictGet_cons] at h
    rw [List.cons_append, dictGet_cons]
    by_cases ha : a = k
    · rw [if_pos ha] at h ⊢
      exact h
    · rw [if_neg ha] at h ⊢
      exact ih h

theorem dictGet_append_none {α : Type} {l m : List (String × α)} {k : String}
    (h : dictGet l k = none) : dictGet (l ++ m) k = dictGet m k := by
  induction l with
  | nil => rfl
  | cons p rest ih =>
    obtain ⟨a, w⟩ := p
    rw [dictGet_cons] at h
    rw [List.cons_append, dictGet_cons]
    by_cases ha : a = k
    · rw [if_pos ha] at h
      cases h
    · rw [if_neg ha] at h ⊢
      exact ih h

theorem dictGet_eq_none_iff {α : Type} (l : List (String × α)) (k : String) :
    dictGet l k = none ↔ k ∉ l.map Prod.fst := by
  induction l with
  | nil => simp [dictGet_nil]
  | cons p rest ih =>
    obtain ⟨a, v⟩ := p
    rw [dictGet_cons]
    by_cases ha : a = k
    · rw [if_pos ha]
      simp [ha]
    · rw [if_neg ha]
      simp only [List.map_cons, List.mem_cons, ih]
      constructor
      · rintro hn (hk | hk)
        · exact ha hk.symm
        · exact hn hk
      · intro hn
        exact fun hk => hn (Or.inr hk)

theorem dictSet_fresh {α : Type} (l : List (String × α)) (k : String) (v : α)
    (h : dictGet l k = none) : dictSet l k v = l ++ [(k, v)] := by
  simp [dictSet, h]

theorem mem_of_dictGet {α : Type} {l : List (String × α)} {k : String} {v : α}
    (h : dictGet l k = some v) : (k, v) ∈ l := by
  induction l with
  | nil => rw [dictGet_nil] at h; cases h
  | cons p rest ih =>
    obtain ⟨a, w⟩ := p
    rw [dictGet_cons] at h
    by_cases ha : a = k
    · rw [if_pos ha] at h
      have hv : w = v := Option.some.inj h
      subst hv
      subst ha
      exact List.mem_cons_self _ _
    · rw [if_neg ha] at h
      exact List.mem_cons_of_mem _ (ih h)

theorem dictGet_of_mem_nodup {α : Type} {l : List (String × α)} {k : String} {v : α}
    (hnd : (l.map Prod.fst).Nodup) (hm : (k, v) ∈ l) : dictGet l k = some v := by
  induction l with
  | nil => cases hm
  | cons p rest ih =>
    obtain ⟨a, w⟩ := p
    rcases List.mem_cons.mp hm with heq | hrest
    · have h1 : k = a := congrArg Prod.fst heq
      have h2 : v = w := congrArg Prod.snd heq
      subst h1
      subst h2
      rw [dictGet_cons, if_pos rfl]
    · have hk : k ∈ rest.map Prod.fst := List.mem_map.mpr ⟨(k, v), hrest, rfl⟩
      have ha : a ≠ k := by
        rintro rfl
        exact (List.nodup_cons.mp hnd).1 hk
      rw [dictGet_cons, if_neg ha]
      exact ih (List.nodup_cons.mp hnd).2 hrest

theorem trouver_spec {c : Cuisine} {fid : String}
    (h : trouver_four_disponible c = some fid) :
    ∃ f, (fid, f) ∈ c.fours ∧ f.statut = "disponible" := by
  unfold trouver_four_disponible at h
  rcases Option.map_eq_some'.mp h with ⟨p, hp, hfst⟩
  have hmem : p ∈ c.fours := List.mem_of_find?_eq_some hp
  have hpred := List.find?_some hp
  have hpe : (fid, p.2) = p := by
    rw [← hfst]
  refine ⟨p.2, ?_, ?_⟩
  · rw [hpe]
    exact hmem
  · simpa using hpred

theorem trouver_none {c : Cuisine} (h : trouver_four_disponible c = none) :
    ∀ p ∈ c.fours, (p : String × Four).2.statut ≠ "disponible" := by
  unfold trouver_four_disponible at h
  intro p hp hs
  have hfind := Option.map_eq_none'.mp h
  have := List.find?_eq_none.mp hfind p hp
  simp [hs] at this

theorem list_set_same {α : Type} :
    ∀ (l : List α) (i : Nat) (a : α), l.get? i = some a → l.set i a = l := by
  intro l
  induction l with
  | nil => intro i a h; cases h
  | cons x rest ih =>
    intro i a h
    cases i with
    | zero =>
      have : x = a := Option.some.inj h
      simp [List.set, this]
    | succ j =>
      simp only [List.get?] at h
      simp [List.set, ih j a h]

theorem mem_set_elim {α : Type} {l : List α} {i : Nat} {x y : α} (h : y ∈ l.set i x) :
    y = x ∨ ∃ j, j ≠ i ∧ l.get? j = some y := by
  rcases List.mem_iff_get?.mp h with ⟨j, hj⟩
  by_cases hij : j = i
  · subst hij
    left
    have hlen : j < l.length := by
      rcases List.get?_eq_some.mp hj with ⟨hl, _⟩
      simpa [List.length_set] using hl
    have h2 := List.getElem?_set_self (l := l) (i := j) (a := x) hlen
    rw [List.get?_eq_getElem?, h2] at hj
    exact (Option.some.inj hj).symm
  · right
    refine ⟨j, hij, ?_⟩
    have h3 : (l.set i x)[j]? = l[j]? := List.getElem?_set_ne (Ne.symm hij)
    rw [List.get?_eq_getElem?] at hj ⊢
    rw [← h3]
    exact hj

theorem ajouter_event_fours (c : Cuisine) (ty : String) (d : EventData) :
    (ajouter_event c ty d).fours = c.fours := rfl

theorem ajouter_event_commandes (c : Cuisine) (ty : String) (d : EventData) :
    (ajouter_event c ty d).commandes = c.commandes := rfl

theorem ajouter_event_taches (c : Cuisine) (ty : String) (d : EventData) :
    (ajouter_event c ty d).taches = c.taches := rfl

theorem ajouter_event_compteur (c : Cuisine) (ty : String) (d : EventData) :
    (ajouter_event c ty d).compteur_commandes = c.compteur_commandes := rfl

theorem ajouter_event_queue (c : Cuisine) (ty : String) (d : EventData) :
    (ajouter_event c ty d).events_queue
      = c.events_queue ++ [{ type := ty, data := d, timestamp := c.now }] := rfl

theorem ajouter_event_emis (c : Cuisine) (ty : String) (d : EventData) :
    (ajouter_event c ty d).emis
      = c.emis ++ [{ type := ty, data := d, timestamp := c.now }] := rfl

theorem ajouter_event_now (c : Cuisine) (ty : String) (d : EventData) :
    (ajouter_event c ty d).now = c.now + 1 := rfl

theorem ajouter_event_historique (c : Cuisine) (ty : String) (d : EventData) :
    (ajouter_event c ty d).historique
      = (if (c.historique ++ [({ type := ty, data := d, timestamp := c.now } : Event)]).length > 100 then
          (c.historique ++ [({ type := ty, data := d, timestamp := c.now } : Event)]).drop
            ((c.historique ++ [({ type := ty, data := d, timestamp := c.now } : Event)]).length - 100)
        else c.historique ++ [({ type := ty, data := d, timestamp := c.now } : Event)]) := rfl

theorem kitchenInv_ajouter {c : Cuisine} (hI : KitchenInv c) (ty : String) (d : EventData) :
    KitchenInv (ajouter_event c ty d) := by
  refine ⟨hI.fourKeys, hI.fourBound, ?_, ?_, hI.cmdKeys, hI.tacheIds, hI.link⟩
  · rw [ajouter_event_historique]
    split
    · rename_i hlong
      rw [List.length_drop]
      omega
    · rename_i hshort
      omega
  · rw [ajouter_event_historique, ajouter_event_emis]
    have hsuf : c.historique ++ [{ type := ty, data := d, timestamp := c.now }]
        <:+ c.emis ++ [{ type := ty, data := d, timestamp := c.now }] := by
      rcases hI.histSuffix with ⟨s, hs⟩
      exact ⟨s, by rw [← List.append_assoc, hs]⟩
    split
    · exact List.IsSuffix.trans (List.drop_suffix _ _) hsuf
    · exact hsuf

theorem kitchenInv_queue {c : Cuisine} (hI : KitchenInv c) (q : List Event) :
    KitchenInv { c with events_queue := q } :=
  ⟨hI.fourKeys, hI.fourBound, hI.histLen, hI.histSuffix, hI.cmdKeys, hI.tacheIds, hI.link⟩

theorem fourKeys_nodup {c : Cuisine} (hI : KitchenInv c) : (c.fours.map Prod.fst).Nodup := by
  rw [hI.fourKeys]
  decide

theorem four_unique {c : Cuisine} (hI : KitchenInv c) {fid : String} {f g : Four}
    (hm : (fid, f) ∈ c.fours) (hg : dictGet c.fours fid = some g) : f = g := by
  have := dictGet_of_mem_nodup (fourKeys_nodup hI) hm
  rw [this] at hg
  exact Option.some.inj hg

theorem stage_facts (pc : Nat) (h : pc < 7) :
    stageProg pc = progAt (pc + 1) ∧ stageId pc = statutAt (pc + 1) ∧
    stageIds.take (min (pc + 1) 7) = stageIds.take (min pc 7) ++ [stageId pc] := by
  interval_cases pc <;> exact ⟨rfl, rfl, by decide⟩

theorem progAt_mono (pc : Nat) (h : pc ≤ 7) : progAt pc ≤ progAt (pc + 1) := by
  interval_cases pc <;> decide

theorem commander_unknown {c : Cuisine} {r : String} (h : dictGet recettes r = none)
    (four_id : Option String) (portions : Nat) (options : List (String × String)) :
    commander c r four_id portions options
      = (.flanIntrouvable,
         ajouter_event c "erreur" (.erreurE "commande" ("Recette inconnue: " ++ r))) := by
  unfold commander
  rw [h]
  rfl

theorem commander_noFour {c : Cuisine} {r : String} {rec : Recette} {four_id : Option String}
    (hr : dictGet recettes r = some rec) (hres : resoudre_four c four_id = none)
    (portions : Nat) (options : List (String × String)) :
    commander c r four_id portions options = (.cuisineFermee, c) := by
  unfold commander
  rw [hr, hres]
  rfl

theorem commander_fourNone {c : Cuisine} {r : String} {rec : Recette} {four_id : Option String}
    {fid : String}
    (hr : dictGet recettes r = some rec) (hres : resoudre_four c four_id = some fid)
    (hf : dictGet c.fours fid = none)
    (portions : Nat) (options : List (String × String)) :
    commander c r four_id portions options = (.cuisineFermee, c) := by
  unfold commander
  rw [hr, hres]
  simp only [hf]
  rfl

theorem commander_notReady {c : Cuisine} {r : String} {rec : Recette} {four_id : Option String}
    {fid : String} {f : Four}
    (hr : dictGet recettes r = some rec) (hres : resoudre_four c four_id = some fid)
    (hf : dictGet c.fours fid = some f)
    (hst1 : f.statut ≠ "pret") (hst2 : f.statut ≠ "disponible")
    (portions : Nat) (options : List (String × String)) :
    commander c r four_id portions options = (.fourOccupe fid, c) := by
  unfold commander
  rw [hr, hres]
  simp only [hf]
  rw [if_pos (show f.statut ≠ "pret" ∧ f.statut ≠ "disponible" from ⟨hst1, hst2⟩)]
  rfl

theorem commander_ok {c : Cuisine} {r : String} {rec : Recette} {four_id : Option String}
    {fid : String} {f : Four}
    (hr : dictGet recettes r = some rec) (hres : resoudre_four c four_id = some fid)
    (hf : dictGet c.fours fid = some f)
    (hst : f.statut = "pret" ∨ f.statut = "disponible")
    (portions : Nat) (options : List (String × String)) :
    commander c r four_id portions options
      = (.flanCree (mkId (c.compteur_commandes + 1)) fid,
         ajouter_event
           { c with
             compteur_commandes := c.compteur_commandes + 1,
             commandes := dictSet c.commandes (mkId (c.compteur_commandes + 1))
               { id := mkId (c.compteur_commandes + 1), recette := r, portions := portions,
                 options := options, four_id := fid, statut := "en_preparation",
                 progression := 0, etapes := [], debut := c.now, fin := none },
             fours := dictUpdate c.fours fid
               (fun g => { g with statut := "cuisson", commande_en_cours := some (mkId (c.compteur_commandes + 1)) }),
             taches := c.taches ++
               [{ commande_id := mkId (c.compteur_commandes + 1), four_id := fid, recette := r, debut := c.now, pc := 0 }] }
           "commande" (.commandeE (mkId (c.compteur_commandes + 1)) r)) := by
  unfold commander
  rw [hr, hres]
  simp only [hf]
  rw [if_neg (show ¬(f.statut ≠ "pret" ∧ f.statut ≠ "disponible") from by
        rintro ⟨h1, h2⟩; rcases hst with h | h; exacts [h1 h, h2 h])]
  rfl

theorem trouver_isSome {c : Cuisine} {fid : String}
    (h : trouver_four_disponible c = some fid) : (dictGet c.fours fid).isSome := by
  rcases trouver_spec h with ⟨f, hm, _⟩
  have hmem : fid ∈ c.fours.map Prod.fst := List.mem_map.mpr ⟨(fid, f), hm, rfl⟩
  rcases ho : dictGet c.fours fid with _ | v
  · exact absurd hmem ((dictGet_eq_none_iff _ _).mp ho)
  · rfl

theorem resoudre_four_none (c : Cuisine) :
    resoudre_four c none = trouver_four_disponible c := rfl

theorem resoudre_four_some (c : Cuisine) (fid0 : String) :
    resoudre_four c (some fid0)
      = if (dictGet c.fours fid0).isSome then some fid0 else trouver_four_disponible c := rfl

theorem resoudre_isSome {c : Cuisine} {four_id : Option String} {fid : String}
    (h : resoudre_four c four_id = some fid) : (dictGet c.fours fid).isSome := by
  cases four_id with
  | none =>
    rw [resoudre_four_none] at h
    exact trouver_isSome h
  | some fid0 =>
    rw [resoudre_four_some] at h
    by_cases hs : (dictGet c.fours fid0).isSome
    · rw [if_pos hs] at h
      have heq : fid0 = fid := Option.some.inj h
      subst heq
      exact hs
    · rw [if_neg hs] at h
      exact trouver_isSome h

theorem trouver_dictGet {c : Cuisine} (hI : KitchenInv c) {fid : String}
    (h : trouver_four_disponible c = some fid) :
    ∃ f, dictGet c.fours fid = some f ∧ f.statut = "disponible" := by
  rcases trouver_spec h with ⟨f, hm, hs⟩
  exact ⟨f, dictGet_of_mem_nodup (fourKeys_nodup hI) hm, hs⟩

theorem length_ajouter {c : Cuisine} (_h : c.historique.length ≤ 100)
    (ty : String) (d : EventData) : (ajouter_event c ty d).historique.length ≤ 100 := by
  rw [ajouter_event_historique]
  split
  · rw [List.length_drop]
    omega
  · rename_i hshort
    rw [List.length_append] at hshort ⊢
    omega

theorem suffix_ajouter {c : Cuisine} (h : c.historique <:+ c.emis)
    (ty : String) (d : EventData) :
    (ajouter_event c ty d).historique <:+ (ajouter_event c ty d).emis := by
  rw [ajouter_event_historique, ajouter_event_emis]
  have hsuf : c.historique ++ [({ type := ty, data := d, timestamp := c.now } : Event)]
      <:+ c.emis ++ [({ type := ty, data := d, timestamp := c.now } : Event)] := by
    rcases h with ⟨s, hs⟩
    exact ⟨s, by rw [← List.append_assoc, hs]⟩
  split
  · exact List.IsSuffix.trans (List.drop_suffix _ _) hsuf
  · exact hsuf

theorem prechauffage_start_none {c : Cuisine} (temp : Nat)
    (h : trouver_four_disponible c = none) :
    prechauffage_start c temp
      = ajouter_event c "erreur" (.erreurE "prechauffage" "Tous les fours sont occupés") := by
  unfold prechauffage_start
  rw [h]

theorem prechauffage_start_some {c : Cuisine} (temp : Nat) {fid : String}
    (h : trouver_four_disponible c = some fid) :
    prechauffage_start c temp
      = ajouter_event
          { c with
            fours := dictUpdate c.fours fid (fun f => { f with statut := "prechauffage", temperature := temp }) }
          "prechauffage" (.prechauffageE fid temp) := by
  unfold prechauffage_start
  rw [h]

theorem fourBound_dictUpdate {fours : List (String × Four)} {fid : String} {upd : Four → Four}
    (hOld : ∀ p ∈ fours, ((p : String × Four).2.statut = "cuisson" ↔ p.2.commande_en_cours ≠ none))
    (hNew : ∀ f : Four, (fid, f) ∈ fours →
      ((upd f).statut = "cuisson" ↔ (upd f).commande_en_cours ≠ none)) :
    ∀ p ∈ dictUpdate fours fid upd,
      ((p : String × Four).2.statut = "cuisson" ↔ p.2.commande_en_cours ≠ none) := by
  intro p hp
  rcases List.mem_map.mp hp with ⟨q, hq, hpq⟩
  have hbeta : p = if q.1 = fid then (q.1, upd q.2) else q := hpq.symm
  by_cases hk : q.1 = fid
  · rw [hbeta, if_pos hk]
    refine hNew q.2 ?_
    rw [← hk]
    exact hq
  · rw [hbeta, if_neg hk]
    exact hOld q hq

theorem binding_none_of_not_busy {c : Cuisine} (hI : KitchenInv c) {fid : String} {f : Four}
    (hm : (fid, f) ∈ c.fours) (hs : f.statut ≠ "cuisson") : f.commande_en_cours = none := by
  have hiff := hI.fourBound (fid, f) hm
  exact not_not.mp (fun hb => hs (hiff.mpr hb))

theorem kitchenInv_pre_start {c : Cuisine} (hI : KitchenInv c) (temp : Nat) :
    KitchenInv (prechauffage_start c temp) := by
  rcases htr : trouver_four_disponible c with _ | fid
  · rw [prechauffage_start_none temp htr]
    exact kitchenInv_ajouter hI _ _
  · rw [prechauffage_start_some temp htr]
    refine kitchenInv_ajouter ?_ _ _
    rcases trouver_dictGet hI htr with ⟨f, hdf, hdisp⟩
    refine ⟨?_, ?_, hI.histLen, hI.histSuffix, hI.cmdKeys, hI.tacheIds, hI.link⟩
    · exact (dictUpdate_keys c.fours fid
        (fun f => { f with statut := "prechauffage", temperature := temp })).trans hI.fourKeys
    · refine @fourBound_dictUpdate c.fours fid
        (fun f => { f with statut := "prechauffage", temperature := temp }) hI.fourBound ?_
      intro g hg
      have hgf : g = f := four_unique hI hg hdf
      subst hgf
      have hnc : g.statut ≠ "cuisson" := by
        rw [hdisp]
        decide
      have hnb : g.commande_en_cours = none := binding_none_of_not_busy hI hg hnc
      constructor
      · intro hs
        have hps : ("prechauffage" : String) = "cuisson" := hs
        exact absurd hps (by decide)
      · intro hb
        exact absurd hnb hb

theorem kitchenInv_pre_finish {c : Cuisine} (hI : KitchenInv c) {fid : String} {f : Four}
    (hf : dictGet c.fours fid = some f) (hs : f.statut = "prechauffage") :
    KitchenInv (prechauffage_finish c fid) := by
  refine ⟨?_, ?_, hI.histLen, hI.histSuffix, hI.cmdKeys, hI.tacheIds, hI.link⟩
  · exact (dictUpdate_keys c.fours fid (fun f => { f with statut := "pret" })).trans hI.fourKeys
  · refine @fourBound_dictUpdate c.fours fid (fun f => { f with statut := "pret" }) hI.fourBound ?_
    intro g hg
    have hgf : g = f := four_unique hI hg hf
    subst hgf
    have hnc : g.statut ≠ "cuisson" := by
      rw [hs]
      decide
    have hnb : g.commande_en_cours = none := binding_none_of_not_busy hI hg hnc
    constructor
    · intro hcs
      have hps : ("pret" : String) = "cuisson" := hcs
      exact absurd hps (by decide)
    · intro hb
      exact absurd hnb hb

theorem kitchenInv_commander {c : Cuisine} (hI : KitchenInv c) (r : String)
    (four_id : Option String) (portions : Nat) (options : List (String × String)) :
    KitchenInv (commander c r four_id portions options).2 := by
  rcases hrec : dictGet recettes r with _ | rec
  · rw [commander_unknown hrec]
    exact kitchenInv_ajouter hI _ _
  · rcases hres : resoudre_four c four_id with _ | fid
    · rw [commander_noFour hrec hres]
      exact hI
    · rcases hf : dictGet c.fours fid with _ | f
      · rw [commander_fourNone hrec hres hf]
        exact hI
      · by_cases hst : f.statut = "pret" ∨ f.statut = "disponible"
        · rw [commander_ok hrec hres hf hst]
          refine kitchenInv_ajouter ?_ _ _
          have hfresh : dictGet c.commandes (mkId (c.compteur_commandes + 1)) = none := by
            rw [dictGet_eq_none_iff, hI.cmdKeys]
            exact mkId_not_mem_idsUpTo _
          refine ⟨?_, ?_, hI.histLen, hI.histSuffix, ?_, ?_, ?_⟩
          · exact (dictUpdate_keys c.fours fid
              (fun g => { g with statut := "cuisson", commande_en_cours := some (mkId (c.compteur_commandes + 1)) })).trans hI.fourKeys
          · refine @fourBound_dictUpdate c.fours fid
              (fun g => { g with statut := "cuisson", commande_en_cours := some (mkId (c.compteur_commandes + 1)) }) hI.fourBound ?_
            intro g hg
            constructor
            · intro _
              exact Option.some_ne_none _
            · intro _
              rfl
          · show (dictSet c.commandes (mkId (c.compteur_commandes + 1)) _).map Prod.fst
              = idsUpTo (c.compteur_commandes + 1)
            rw [dictSet_fresh _ _ _ hfresh, List.map_append, hI.cmdKeys, idsUpTo_succ]
            rfl
          · show (c.taches ++ [_]).map Tache.commande_id = idsUpTo (c.compteur_commandes + 1)
            rw [List.map_append, hI.tacheIds, idsUpTo_succ]
            rfl
          · intro t ht
            rcases List.mem_append.mp ht with hold | hnew
            · rcases hI.link t hold with ⟨hpc, cmd', hget, h1, h2, h3⟩
              refine ⟨hpc, cmd', ?_, h1, h2, h3⟩
              show dictGet (dictSet c.commandes (mkId (c.compteur_commandes + 1)) _) t.commande_id
                = some cmd'
              rw [dictSet_fresh _ _ _ hfresh]
              exact dictGet_append_some hget
            · have hteq := List.mem_singleton.mp hnew
              subst hteq
              refine ⟨Nat.zero_le 8, ?_⟩
              refine ⟨{ id := mkId (c.compteur_commandes + 1), recette := r, portions := portions,
                        options := options, four_id := fid, statut := "en_preparation",
                        progression := 0, etapes := [], debut := c.now, fin := none }, ?_, rfl, rfl, rfl⟩
              show dictGet (dictSet c.commandes (mkId (c.compteur_commandes + 1)) _)
                (mkId (c.compteur_commandes + 1)) = _
              rw [dictSet_fresh _ _ _ hfresh, dictGet_append_none hfresh, dictGet_cons, if_pos rfl]
        · push_neg at hst
          rw [commander_notReady hrec hres hf hst.1 hst.2]
          exact hI

theorem run_tache_aux_stage {c : Cuisine} {t : Tache} (h7 : t.pc < 7)
    (hsome : (dictGet c.commandes t.commande_id).isSome = true) :
    run_tache_aux c t = (etape_body c t, { t with pc := t.pc + 1 }) := by
  unfold run_tache_aux
  rw [if_pos h7, if_pos hsome]

theorem run_tache_aux_vanished {c : Cuisine} {t : Tache} (h7 : t.pc < 7)
    (hnone : dictGet c.commandes t.commande_id = none) :
    run_tache_aux c t = (c, { t with pc := 8 }) := by
  unfold run_tache_aux
  rw [if_pos h7, if_neg (by rw [hnone]; simp)]

theorem run_tache_aux_finish {c : Cuisine} {t : Tache} (h7 : t.pc = 7) :
    run_tache_aux c t = (finir_cuisson c t, { t with pc := 8 }) := by
  unfold run_tache_aux
  rw [if_neg (by omega), if_pos h7]

theorem run_tache_aux_done {c : Cuisine} {t : Tache} (h8 : 8 ≤ t.pc) :
    run_tache_aux c t = (c, t) := by
  unfold run_tache_aux
  rw [if_neg (by omega), if_neg (by omega)]

theorem run_tache_get_none {c : Cuisine} {i : Nat} (h : c.taches.get? i = none) :
    run_tache c i = c := by
  unfold run_tache
  rw [h]

theorem run_tache_get {c : Cuisine} {i : Nat} {t : Tache} (h : c.taches.get? i = some t) :
    run_tache c i
      = { (run_tache_aux c t).1 with
          taches := (run_tache_aux c t).1.taches.set i (run_tache_aux c t).2 } := by
  unfold run_tache
  rw [h]

theorem finir_cuisson_some {c : Cuisine} {t : Tache}
    (hp : (dictGet c.fours t.four_id).isSome = true) :
    finir_cuisson c t
      = ajouter_event
          { c with
            commandes := dictUpdate c.commandes t.commande_id (majFin c),
            fours := dictUpdate c.fours t.four_id majFour }
          "termine" (.termineE t.commande_id (c.now - t.debut) t.recette) := by
  simp only [finir_cuisson, hp, if_true]

theorem finir_cuisson_none {c : Cuisine} {t : Tache}
    (hp : (dictGet c.fours t.four_id).isSome = false) :
    finir_cuisson c t
      = ajouter_event
          { c with commandes := dictUpdate c.commandes t.commande_id (majFin c) }
          "termine" (.termineE t.commande_id (c.now - t.debut) t.recette) := by
  simp only [finir_cuisson, hp, Bool.false_eq_true, if_false]

theorem kitchenInv_run_tache {c : Cuisine} (hI : KitchenInv c) (i : Nat) :
    KitchenInv (run_tache c i) := by
  rcases hti : c.taches.get? i with _ | t
  · rw [run_tache_get_none hti]
    exact hI
  · rw [run_tache_get hti]
    have ht : t ∈ c.taches := List.get?_mem hti
    rcases hI.link t ht with ⟨hpc, cmd, hget, hprog, hstat, hetap⟩
    have hnd : (c.taches.map Tache.commande_id).Nodup := by
      rw [hI.tacheIds]
      exact idsUpTo_nodup _
    have hgi : (c.taches.map Tache.commande_id).get? i = some t.commande_id := by
      rw [List.get?_map, hti]
      rfl
    by_cases h7 : t.pc < 7
    · have hsome : (dictGet c.commandes t.commande_id).isSome = true := by
        rw [hget]
        rfl
      rw [run_tache_aux_stage h7 hsome]
      refine ⟨?_, ?_, ?_, ?_, ?_, ?_, ?_⟩
      · exact hI.fourKeys
      · exact hI.fourBound
      · show (ajouter_event { c with commandes := dictUpdate c.commandes t.commande_id (majEtape c t) }
          "progression" (.progressionE t.commande_id (stageId t.pc) (stageDesc t.pc) (stageProg t.pc))).historique.length ≤ 100
        exact length_ajouter hI.histLen _ _
      · show (ajouter_event { c with commandes := dictUpdate c.commandes t.commande_id (majEtape c t) }
            "progression" (.progressionE t.commande_id (stageId t.pc) (stageDesc t.pc) (stageProg t.pc))).historique
          <:+ (ajouter_event { c with commandes := dictUpdate c.commandes t.commande_id (majEtape c t) }
            "progression" (.progressionE t.commande_id (stageId t.pc) (stageDesc t.pc) (stageProg t.pc))).emis
        exact suffix_ajouter hI.histSuffix _ _
      · exact (dictUpdate_keys c.commandes t.commande_id (majEtape c t)).trans hI.cmdKeys
      · show (c.taches.set i ({ t with pc := t.pc + 1 } : Tache)).map Tache.commande_id
          = idsUpTo c.compteur_commandes
        rw [List.map_set]
        rw [show ({ t with pc := t.pc + 1 } : Tache).commande_id = t.commande_id from rfl]
        rw [list_set_same _ i _ hgi]
        exact hI.tacheIds
      · intro t2 ht2
        have ht2w : t2 ∈ c.taches.set i ({ t with pc := t.pc + 1 } : Tache) := ht2
        rcases mem_set_elim ht2w with heq | ⟨j, hji, hj⟩
        · subst heq
          rcases stage_facts t.pc h7 with ⟨hq1, hq2, hq3⟩
          refine ⟨show t.pc + 1 ≤ 8 by omega, majEtape c t cmd, ?_, ?_, ?_, ?_⟩
          · show dictGet (dictUpdate c.commandes t.commande_id (majEtape c t)) t.commande_id = _
            rw [dictGet_update_self, hget]
            rfl
          · show stageProg t.pc = progAt (t.pc + 1)
            exact hq1
          · show stageId t.pc = statutAt (t.pc + 1)
            exact hq2
          · show (cmd.etapes ++ [({ id := stageId t.pc, description := stageDesc t.pc, timestamp := c.now } : Etape)]).map Etape.id
              = stageIds.take (min (t.pc + 1) 7)
            rw [List.map_append, hetap, hq3]
            rfl
        · have ht2mem : t2 ∈ c.taches := List.get?_mem hj
          rcases hI.link t2 ht2mem with ⟨hpc2, cmd2, hget2, ha, hb, hc2⟩
          have hgj : (c.taches.map Tache.commande_id).get? j = some t2.commande_id := by
            rw [List.get?_map, hj]
            rfl
          have hne : t2.commande_id ≠ t.commande_id := by
            intro hEq
            rw [hEq] at hgj
            rcases List.get?_eq_some.mp hgj with ⟨hlen, _⟩
            exact hji (List.get?_inj hlen hnd (hgj.trans hgi.symm))
          refine ⟨hpc2, cmd2, ?_, ha, hb, hc2⟩
          show dictGet (dictUpdate c.commandes t.commande_id (majEtape c t)) t2.commande_id = some cmd2
          rw [dictGet_update_ne _ _ _ _ hne]
          exact hget2
    · by_cases h8 : t.pc = 7
      · rw [run_tache_aux_finish h8]
        by_cases hp : (dictGet c.fours t.four_id).isSome = true
        · rw [finir_cuisson_some hp]
          refine ⟨?_, ?_, ?_, ?_, ?_, ?_, ?_⟩
          · exact (dictUpdate_keys c.fours t.four_id majFour).trans hI.fourKeys
          · refine @fourBound_dictUpdate c.fours t.four_id majFour hI.fourBound ?_
            intro g hg
            constructor
            · intro hs
              exact absurd (show ("disponible" : String) = "cuisson" from hs) (by decide)
            · intro hb
              exact absurd rfl hb
          · show (ajouter_event
                { c with
                  commandes := dictUpdate c.commandes t.commande_id (majFin c),
                  fours := dictUpdate c.fours t.four_id majFour }
                "termine" (.termineE t.commande_id (c.now - t.debut) t.recette)).historique.length ≤ 100
            exact length_ajouter hI.histLen _ _
          · show (ajouter_event
                { c with
                  commandes := dictUpdate c.commandes t.commande_id (majFin c),
                  fours := dictUpdate c.fours t.four_id majFour }
                "termine" (.termineE t.commande_id (c.now - t.debut) t.recette)).historique
              <:+ (ajouter_event
                { c with
                  commandes := dictUpdate c.commandes t.commande_id (majFin c),
                  fours := dictUpdate c.fours t.four_id majFour }
                "termine" (.termineE t.commande_id (c.now - t.debut) t.recette)).emis
            exact suffix_ajouter hI.histSuffix _ _
          · exact (dictUpdate_keys c.commandes t.commande_id (majFin c)).trans hI.cmdKeys
          · show (c.taches.set i ({ t with pc := 8 } : Tache)).map Tache.commande_id
              = idsUpTo c.compteur_commandes
            rw [List.map_set]
            rw [show ({ t with pc := 8 } : Tache).commande_id = t.commande_id from rfl]
            rw [list_set_same _ i _ hgi]
            exact hI.tacheIds
          · intro t2 ht2
            have ht2w : t2 ∈ c.taches.set i ({ t with pc := 8 } : Tache) := ht2
            rcases mem_set_elim ht2w with heq | ⟨j, hji, hj⟩
            · subst heq
              refine ⟨show (8 : Nat) ≤ 8 from le_refl 8, majFin c cmd, ?_, ?_, ?_, ?_⟩
              · show dictGet (dictUpdate c.commandes t.commande_id (majFin c)) t.commande_id = _
                rw [dictGet_update_self, hget]
                rfl
              · show (100 : Nat) = progAt 8
                rfl
              · show ("termine" : String) = statutAt 8
                rfl
              · show cmd.etapes.map Etape.id = stageIds.take (min 8 7)
                have hh := hetap
                rw [h8] at hh
                exact hh
            · have ht2mem : t2 ∈ c.taches := List.get?_mem hj
              rcases hI.link t2 ht2mem with ⟨hpc2, cmd2, hget2, ha, hb, hc2⟩
              have hgj : (c.taches.map Tache.commande_id).get? j = some t2.commande_id := by
                rw [List.get?_map, hj]
                rfl
              have hne : t2.commande_id ≠ t.commande_id := by
                intro hEq
                rw [hEq] at hgj
                rcases List.get?_eq_some.mp hgj with ⟨hlen, _⟩
                exact hji (List.get?_inj hlen hnd (hgj.trans hgi.symm))
              refine ⟨hpc2, cmd2, ?_, ha, hb, hc2⟩
              show dictGet (dictUpdate c.commandes t.commande_id (majFin c)) t2.commande_id = some cmd2
              rw [dictGet_update_ne _ _ _ _ hne]
              exact hget2
        · have hp' : (dictGet c.fours t.four_id).isSome = false := by
            rcases hb : (dictGet c.fours t.four_id).isSome with _ | _
            · rfl
            · exact absurd hb hp
          rw [finir_cuisson_none hp']
          refine ⟨?_, ?_, ?_, ?_, ?_, ?_, ?_⟩
          · exact hI.fourKeys
          · exact hI.fourBound
          · show (ajouter_event { c with commandes := dictUpdate c.commandes t.commande_id (majFin c) }
              "termine" (.termineE t.commande_id (c.now - t.debut) t.recette)).historique.length ≤ 100
            exact length_ajouter hI.histLen _ _
          · show (ajouter_event { c with commandes := dictUpdate c.commandes t.commande_id (majFin c) }
              "termine" (.termineE t.commande_id (c.now - t.debut) t.recette)).historique
              <:+ (ajouter_event { c with commandes := dictUpdate c.commandes t.commande_id (majFin c) }
              "termine" (.termineE t.commande_id (c.now - t.debut) t.recette)).emis
            exact suffix_ajouter hI.histSuffix _ _
          · exact (dictUpdate_keys c.commandes t.commande_id (majFin c)).trans hI.cmdKeys
          · show (c.taches.set i ({ t with pc := 8 } : Tache)).map Tache.commande_id
              = idsUpTo c.compteur_commandes
            rw [List.map_set]
            rw [show ({ t with pc := 8 } : Tache).commande_id = t.commande_id from rfl]
            rw [list_set_same _ i _ hgi]
            exact hI.tacheIds
          · intro t2 ht2
            have ht2w : t2 ∈ c.taches.set i ({ t with pc := 8 } : Tache) := ht2
            rcases mem_set_elim ht2w with heq | ⟨j, hji, hj⟩
            · subst heq
              refine ⟨show (8 : Nat) ≤ 8 from le_refl 8, majFin c cmd, ?_, ?_, ?_, ?_⟩
              · show dictGet (dictUpdate c.commandes t.commande_id (majFin c)) t.commande_id = _
                rw [dictGet_update_self, hget]
                rfl
              · show (100 : Nat) = progAt 8
                rfl
              · show ("termine" : String) = statutAt 8
                rfl
              · show cmd.etapes.map Etape.id = stageIds.take (min 8 7)
                have hh := hetap
                rw [h8] at hh
                exact hh
            · have ht2mem : t2 ∈ c.taches := List.get?_mem hj
              rcases hI.link t2 ht2mem with ⟨hpc2, cmd2, hget2, ha, hb, hc2⟩
              have hgj : (c.taches.map Tache.commande_id).get? j = some t2.commande_id := by
                rw [List.get?_map, hj]
                rfl
              have hne : t2.commande_id ≠ t.commande_id := by
                intro hEq
                rw [hEq] at hgj
                rcases List.get?_eq_some.mp hgj with ⟨hlen, _⟩
                exact hji (List.get?_inj hlen hnd (hgj.trans hgi.symm))
              refine ⟨hpc2, cmd2, ?_, ha, hb, hc2⟩
              show dictGet (dictUpdate c.commandes t.commande_id (majFin c)) t2.commande_id = some cmd2
              rw [dictGet_update_ne _ _ _ _ hne]
              exact hget2
      · have h8' : 8 ≤ t.pc := by omega
        rw [run_tache_aux_done h8']
        show KitchenInv { c with taches := c.taches.set i t }
        rw [list_set_same _ i t hti]
        exact hI

theorem sse_get_empty {c : Cuisine} (h : c.events_queue = []) :
    sse_get c = ({ type := "heartbeat", data := .heartbeatE, timestamp := c.now }, c) := by
  unfold sse_get
  rw [h]

theorem sse_get_cons {c : Cuisine} {e : Event} {rest : List Event}
    (h : c.events_queue = e :: rest) :
    sse_get c = (e, { c with events_queue := rest }) := by
  unfold sse_get
  rw [h]

theorem kitchenInv_sse {c : Cuisine} (hI : KitchenInv c) : KitchenInv (sse_get c).2 := by
  rcases hq : c.events_queue with _ | ⟨e, rest⟩
  · rw [sse_get_empty hq]
    exact hI
  · rw [sse_get_cons hq]
    exact kitchenInv_queue hI rest

theorem kitchenInv_step {c c' : Cuisine} (hI : KitchenInv c) (hs : Step c c') :
    KitchenInv c' := by
  cases hs with
  | pre_start temp => exact kitchenInv_pre_start hI temp
  | pre_finish fid f hf hstat => exact kitchenInv_pre_finish hI hf hstat
  | cmd r four_id portions options => exact kitchenInv_commander hI r four_id portions options
  | tache i => exact kitchenInv_run_tache hI i
  | sse => exact kitchenInv_sse hI

theorem kitchenInv_init : KitchenInv cuisineInit := by
  refine ⟨rfl, ?_, ?_, ?_, rfl, rfl, ?_⟩
  · decide
  · decide
  · exact List.suffix_refl []
  · intro t ht
    exact absurd ht (List.not_mem_nil t)

theorem kitchenInv_reachable {c : Cuisine} (h : Reachable c) : KitchenInv c := by
  induction h with
  | refl => exact kitchenInv_init
  | tail _ hstep ih => exact kitchenInv_step ih hstep

theorem event_lost_ajouter {c : Cuisine} (ty : String) (d : EventData) {e : Event}
    (hnot : e ∉ c.events_queue) (hts : e.timestamp < c.now) :
    e ∉ (ajouter_event c ty d).events_queue ∧ e.timestamp < (ajouter_event c ty d).now := by
  constructor
  · rw [ajouter_event_queue]
    intro hmem
    rcases List.mem_append.mp hmem with h1 | h1
    · exact hnot h1
    · have he := List.mem_singleton.mp h1
      rw [he] at hts
      exact absurd (show c.now < c.now from hts) (lt_irrefl _)
  · rw [ajouter_event_now]
    omega

theorem event_lost_step {c c' : Cuisine} (hs : Step c c') {e : Event}
    (hnot : e ∉ c.events_queue) (hts : e.timestamp < c.now) :
    e ∉ c'.events_queue ∧ e.timestamp < c'.now := by
  cases hs with
  | pre_start temp =>
    rcases htr : trouver_four_disponible c with _ | fid
    · rw [prechauffage_start_none temp htr]
      exact event_lost_ajouter _ _ hnot hts
    · rw [prechauffage_start_some temp htr]
      exact event_lost_ajouter _ _ hnot hts
  | pre_finish fid f hf hstat => exact ⟨hnot, hts⟩
  | cmd r four_id portions options =>
    rcases hrec : dictGet recettes r with _ | rec
    · rw [commander_unknown hrec]
      exact event_lost_ajouter _ _ hnot hts
    · rcases hres : resoudre_four c four_id with _ | fid
      · rw [commander_noFour hrec hres]
        exact ⟨hnot, hts⟩
      · rcases hf : dictGet c.fours fid with _ | f
        · rw [commander_fourNone hrec hres hf]
          exact ⟨hnot, hts⟩
        · by_cases hst : f.statut = "pret" ∨ f.statut = "disponible"
          · rw [commander_ok hrec hres hf hst]
            exact event_lost_ajouter _ _ hnot hts
          · push_neg at hst
            rw [commander_notReady hrec hres hf hst.1 hst.2]
            exact ⟨hnot, hts⟩
  | tache i =>
    rcases hti : c.taches.get? i with _ | t
    · rw [run_tache_get_none hti]
      exact ⟨hnot, hts⟩
    · rw [run_tache_get hti]
      by_cases h7 : t.pc < 7
      · rcases hq : dictGet c.commandes t.commande_id with _ | cmd0
        · rw [run_tache_aux_vanished h7 hq]
          exact ⟨hnot, hts⟩
        · have hsome : (dictGet c.commandes t.commande_id).isSome = true := by
            rw [hq]
            rfl
          rw [run_tache_aux_stage h7 hsome]
          exact event_lost_ajouter _ _ hnot hts
      · by_cases h8 : t.pc = 7
        · rw [run_tache_aux_finish h8]
          by_cases hp : (dictGet c.fours t.four_id).isSome = true
          · rw [finir_cuisson_some hp]
            exact event_lost_ajouter _ _ hnot hts
          · have hp' : (dictGet c.fours t.four_id).isSome = false := by
              rcases hb : (dictGet c.fours t.four_id).isSome with _ | _
              · rfl
              · exact absurd hb hp
            rw [finir_cuisson_none hp']
            exact event_lost_ajouter _ _ hnot hts
        · rw [run_tache_aux_done (by omega)]
          exact ⟨hnot, hts⟩
  | sse =>
    rcases hq : c.events_queue with _ | ⟨e0, rest⟩
    · rw [sse_get_empty hq]
      exact ⟨hnot, hts⟩
    · rw [sse_get_cons hq]
      refine ⟨?_, hts⟩
      intro hm
      refine hnot ?_
      rw [hq]
      exact List.mem_cons_of_mem _ hm

theorem event_lost_reach {c c' : Cuisine} (hcc : Relation.ReflTransGen Step c c') {e : Event}
    (hnot : e ∉ c.events_queue) (hts : e.timestamp < c.now) :
    e ∉ c'.events_queue := by
  have hand : e ∉ c'.events_queue ∧ e.timestamp < c'.now := by
    induction hcc with
    | refl => exact ⟨hnot, hts⟩
    | tail _ hstep ih => exact event_lost_step hstep ih.1 ih.2
  exact hand.1

theorem progAt_le_100 (pc : Nat) : progAt pc ≤ 100 := by
  by_cases h : pc ≤ 7
  · interval_cases pc <;> decide
  · unfold progAt
    rw [if_neg (by omega), if_neg h]

theorem dictGet_dictSet_of_some {α : Type} {l : List (String × α)} {k q : String} {v w : α}
    (hfresh : dictGet l q = none) (h : dictGet l k = some v) :
    dictGet (dictSet l q w) k = some v := by
  rw [dictSet_fresh _ _ _ hfresh]
  exact dictGet_append_some h

theorem step_prog {c c' : Cuisine} (hI : KitchenInv c) (hs : Step c c') {k : String}
    {cmd : Commande} (h1 : dictGet c.commandes k = some cmd) :
    ∃ cmd', dictGet c'.commandes k = some cmd' ∧ cmd.progression ≤ cmd'.progression := by
  cases hs with
  | pre_start temp =>
    rcases htr : trouver_four_disponible c with _ | fid
    · rw [prechauffage_start_none temp htr]
      exact ⟨cmd, h1, le_refl _⟩
    · rw [prechauffage_start_some temp htr]
      exact ⟨cmd, h1, le_refl _⟩
  | pre_finish fid f hf hstat => exact ⟨cmd, h1, le_refl _⟩
  | cmd r four_id portions options =>
    rcases hrec : dictGet recettes r with _ | rec
    · rw [commander_unknown hrec]
      exact ⟨cmd, h1, le_refl _⟩
    · rcases hres : resoudre_four c four_id with _ | fid
      · rw [commander_noFour hrec hres]
        exact ⟨cmd, h1, le_refl _⟩
      · rcases hf : dictGet c.fours fid with _ | f
        · rw [commander_fourNone hrec hres hf]
          exact ⟨cmd, h1, le_refl _⟩
        · by_cases hst : f.statut = "pret" ∨ f.statut = "disponible"
          · rw [commander_ok hrec hres hf hst]
            have hfresh : dictGet c.commandes (mkId (c.compteur_commandes + 1)) = none := by
              rw [dictGet_eq_none_iff, hI.cmdKeys]
              exact mkId_not_mem_idsUpTo _
            exact ⟨cmd, dictGet_dictSet_of_some hfresh h1, le_refl _⟩
          · push_neg at hst
            rw [commander_notReady hrec hres hf hst.1 hst.2]
            exact ⟨cmd, h1, le_refl _⟩
  | tache i =>
    rcases hti : c.taches.get? i with _ | t
    · rw [run_tache_get_none hti]
      exact ⟨cmd, h1, le_refl _⟩
    · rw [run_tache_get hti]
      have ht : t ∈ c.taches := List.get?_mem hti
      rcases hI.link t ht with ⟨hpc, cmdL, hgetL, hprogL, hstatL, hetapL⟩
      by_cases h7 : t.pc < 7
      · have hsome : (dictGet c.commandes t.commande_id).isSome = true := by
          rw [hgetL]
          rfl
        rw [run_tache_aux_stage h7 hsome]
        by_cases hk : k = t.commande_id
        · subst hk
          have hcmd : cmd = cmdL := Option.some.inj (h1.symm.trans hgetL)
          refine ⟨majEtape c t cmd, ?_, ?_⟩
          · show dictGet (dictUpdate c.commandes t.commande_id (majEtape c t)) t.commande_id
              = some (majEtape c t cmd)
            rw [dictGet_update_self, h1]
            rfl
          · show cmd.progression ≤ stageProg t.pc
            have hcp : cmd.progression = progAt t.pc := by
              rw [hcmd]
              exact hprogL
            rw [hcp]
            rcases stage_facts t.pc h7 with ⟨hq1, _, _⟩
            rw [hq1]
            exact progAt_mono t.pc (by omega)
        · refine ⟨cmd, ?_, le_refl _⟩
          show dictGet (dictUpdate c.commandes t.commande_id (majEtape c t)) k = some cmd
          rw [dictGet_update_ne _ _ _ _ hk]
          exact h1
      · by_cases h8 : t.pc = 7
        · have hcase : ∃ cmd', dictGet (dictUpdate c.commandes t.commande_id (majFin c)) k
              = some cmd' ∧ cmd.progression ≤ cmd'.progression := by
            by_cases hk : k = t.commande_id
            · subst hk
              have hcmd : cmd = cmdL := Option.some.inj (h1.symm.trans hgetL)
              refine ⟨majFin c cmd, ?_, ?_⟩
              · rw [dictGet_update_self, h1]
                rfl
              · show cmd.progression ≤ 100
                have hcp : cmd.progression = progAt t.pc := by
                  rw [hcmd]
                  exact hprogL
                rw [hcp]
                exact progAt_le_100 _
            · refine ⟨cmd, ?_, le_refl _⟩
              rw [dictGet_update_ne _ _ _ _ hk]
              exact h1
          rw [run_tache_aux_finish h8]
          by_cases hp : (dictGet c.fours t.four_id).isSome = true
          · rw [finir_cuisson_some hp]
            exact hcase
          · have hp' : (dictGet c.fours t.four_id).isSome = false := by
              rcases hb : (dictGet c.fours t.four_id).isSome with _ | _
              · rfl
              · exact absurd hb hp
            rw [finir_cuisson_none hp']
            exact hcase
        · rw [run_tache_aux_done (by omega)]
          exact ⟨cmd, h1, le_refl _⟩
  | sse =>
    rcases hq : c.events_queue with _ | ⟨e0, rest⟩
    · rw [sse_get_empty hq]
      exact ⟨cmd, h1, le_refl _⟩
    · rw [sse_get_cons hq]
      exact ⟨cmd, h1, le_refl _⟩

theorem prog_mono_reach {c c' : Cuisine} (hR : Reachable c)
    (hcc : Relation.ReflTransGen Step c c') {k : String} {cmd cmd' : Commande}
    (h1 : dictGet c.commandes k = some cmd) (h2 : dictGet c'.commandes k = some cmd') :
    cmd.progression ≤ cmd'.progression := by
  have main : ∀ {b : Cuisine}, Relation.ReflTransGen Step c b →
      ∃ cmdb, dictGet b.commandes k = some cmdb ∧ cmd.progression ≤ cmdb.progression := by
    intro b hb
    induction hb with
    | refl => exact ⟨cmd, h1, le_refl _⟩
    | tail hab hstep ih =>
      rcases ih with ⟨cmdb, hgb, hle⟩
      have hIb := kitchenInv_reachable (Relation.ReflTransGen.trans hR hab)
      rcases step_prog hIb hstep hgb with ⟨cmdc, hgc, hle2⟩
      exact ⟨cmdc, hgc, le_trans hle hle2⟩
  rcases main hcc with ⟨cmdb, hgb, hle⟩
  have heq : cmdb = cmd' := Option.some.inj (hgb.symm.trans h2)
  rw [← heq]
  exact hle

theorem reach_etatCommande : Reachable etatCommande :=
  Relation.ReflTransGen.tail Relation.ReflTransGen.refl
    (Step.cmd cuisineInit "flan_vanille" none 1 [])

theorem rtg_commande_to_demoulage : Relation.ReflTransGen Step etatCommande etatDemoulage := by
  show Relation.ReflTransGen Step etatCommande
    (run_tache (run_tache (run_tache (run_tache (run_tache (run_tache (run_tache etatCommande 0) 0) 0) 0) 0) 0) 0)
  exact ((((((Relation.ReflTransGen.refl.tail (Step.tache _ 0)).tail (Step.tache _ 0)).tail
    (Step.tache _ 0)).tail (Step.tache _ 0)).tail (Step.tache _ 0)).tail (Step.tache _ 0)).tail
    (Step.tache _ 0)

theorem reach_etatDemoulage : Reachable etatDemoulage :=
  Relation.ReflTransGen.trans reach_etatCommande rtg_commande_to_demoulage

theorem reach_etatPrechauffe : Reachable etatPrechauffe :=
  Relation.ReflTransGen.tail Relation.ReflTransGen.refl (Step.pre_start cuisineInit 180)

/-- C1: in every reachable state of the server, an oven's status is `cuisson`
    (busy) exactly when its `commande_en_cours` reference is non-null, and the
    reference binds at most one order at a time. -/
theorem C1_four_busy_iff_bound (c : Cuisine) (hc : Reachable c) :
    ∀ p ∈ c.fours, ((p : String × Four).2.statut = "cuisson" ↔ p.2.commande_en_cours ≠ none)
      ∧ ∀ o1 o2 : String, p.2.commande_en_cours = some o1 → p.2.commande_en_cours = some o2 →
          o1 = o2 := by
  intro p hp
  refine ⟨(kitchenInv_reachable hc).fourBound p hp, ?_⟩
  intro o1 o2 ho1 ho2
  exact Option.some.inj (ho1.symm.trans ho2)

/-- C1 witness: the invariant evaluated in the reachable state reached by one
    submission, at the oven `four_1`, which is then busy and bound to the
    order `CMD-0001`. -/
theorem C1_four_busy_iff_bound_witness :
    (({ id := "four_1", statut := "cuisson", temperature := 0,
        commande_en_cours := some "CMD-0001" } : Four).statut = "cuisson"
      ↔ ({ id := "four_1", statut := "cuisson", temperature := 0,
           commande_en_cours := some "CMD-0001" } : Four).commande_en_cours ≠ none) := by
  have h := C1_four_busy_iff_bound etatCommande reach_etatCommande
    ("four_1", { id := "four_1", statut := "cuisson", temperature := 0,
                 commande_en_cours := some "CMD-0001" }) (by decide)
  exact h.1

/-- C7: submitting an order with a recipe id absent from the catalog returns
    the `UnknownRecipe` outcome (`FLAN_INTROUVABLE`), and afterwards the order
    table, the oven pool, the order counter and the thread list are unchanged:
    no order is created and no resource is reserved. -/
theorem C7_unknown_recipe (c : Cuisine) (r : String) (four_id : Option String)
    (portions : Nat) (options : List (String × String))
    (hr : dictGet recettes r = none) :
    (commander c r four_id portions options).1 = .flanIntrouvable
    ∧ (commander c r four_id portions options).2.commandes = c.commandes
    ∧ (commander c r four_id portions options).2.fours = c.fours
    ∧ (commander c r four_id portions options).2.compteur_commandes = c.compteur_commandes
    ∧ (commander c r four_id portions options).2.taches = c.taches := by
  rw [commander_unknown hr]
  exact ⟨rfl, rfl, rfl, rfl, rfl⟩

/-- C7 witness: submitting the unknown recipe `flan_pistache` from the initial
    state fails with `FLAN_INTROUVABLE` and creates nothing. -/
theorem C7_unknown_recipe_witness :
    dictGet recettes "flan_pistache" = none
    ∧ (commander cuisineInit "flan_pistache" none 1 []).1 = .flanIntrouvable
    ∧ (commander cuisineInit "flan_pistache" none 1 []).2.commandes = cuisineInit.commandes := by
  have h := C7_unknown_recipe cuisineInit "flan_pistache" none 1 [] (by decide)
  exact ⟨by decide, h.1, h.2.1⟩

/-- C8: in every reachable state the event history holds at most 100 entries
    and is a suffix of the full emission sequence, so truncation always drops
    the oldest entries first. -/
theorem C8_history_bounded_suffix (c : Cuisine) (hc : Reachable c) :
    c.historique.length ≤ 100 ∧ c.historique <:+ c.emis := by
  have hI := kitchenInv_reachable hc
  exact ⟨hI.histLen, hI.histSuffix⟩

/-- C8 witness: the bound and suffix property evaluated after one
    `prechauffage` event. -/
theorem C8_history_bounded_suffix_witness :
    etatPrechauffe.historique.length ≤ 100
    ∧ etatPrechauffe.historique <:+ etatPrechauffe.emis :=
  C8_history_bounded_suffix etatPrechauffe reach_etatPrechauffe

/-- C10: a submission that fails on an unknown recipe id still appends exactly
    one `erreur` event, with phase `commande` and a message naming the unknown
    recipe, to the live queue, the emission log, and (after FIFO truncation)
    the history, so the failure is observable through the stream and
    recentHistory. -/
theorem C10_unknown_recipe_event (c : Cuisine) (r : String) (four_id : Option String)
    (portions : Nat) (options : List (String × String))
    (hr : dictGet recettes r = none) :
    (commander c r four_id portions options).2.events_queue
      = c.events_queue
        ++ [{ type := "erreur", data := .erreurE "commande" ("Recette inconnue: " ++ r),
              timestamp := c.now }]
    ∧ (commander c r four_id portions options).2.emis
      = c.emis
        ++ [{ type := "erreur", data := .erreurE "commande" ("Recette inconnue: " ++ r),
              timestamp := c.now }]
    ∧ ∃ kk, kk ≤ c.historique.length
        ∧ (commander c r four_id portions options).2.historique
          = c.historique.drop kk
            ++ [{ type := "erreur", data := .erreurE "commande" ("Recette inconnue: " ++ r),
                  timestamp := c.now }] := by
  rw [commander_unknown hr]
  refine ⟨ajouter_event_queue c _ _, ajouter_event_emis c _ _, ?_⟩
  rw [ajouter_event_historique]
  split
  · rename_i hlong
    simp only [List.length_append, List.length_singleton] at hlong
    refine ⟨c.historique.length + 1 - 100, by omega, ?_⟩
    simp only [List.length_append, List.length_singleton]
    rw [List.drop_append_eq_append_drop]
    rw [show c.historique.length + 1 - 100 - c.historique.length = 0 from by omega]
    rfl
  · exact ⟨0, Nat.zero_le _, by rw [List.drop_zero]⟩

/-- C10 witness: the unknown-recipe failure from the initial state pushes
    exactly the expected `erreur` event on the live queue. -/
theorem C10_unknown_recipe_event_witness :
    (commander cuisineInit "flan_pistache" none 1 []).2.events_queue
      = [{ type := "erreur", data := .erreurE "commande" "Recette inconnue: flan_pistache",
           timestamp := 0 }] := by
  have h := C10_unknown_recipe_event cuisineInit "flan_pistache" none 1 [] (by decide)
  exact h.1

/-- C9 (amended): when the order has been removed from engine state and at
    least one stage of `simuler_cuisson` remains, the per-stage defensive
    check makes the thread exit silently at its next quantum: the state is
    untouched (no event, no order write, no oven change) and the thread is
    done, so every later quantum is also a no-op.  The unamended claim fails
    when the removal happens after the last stage's check: the completion
    block runs unguarded (see the counterexample). -/
theorem C9_vanished_order_silent (c : Cuisine) (t : Tache) (h7 : t.pc < 7)
    (hnone : dictGet c.commandes t.commande_id = none) :
    (run_tache_aux c t).1 = c
    ∧ (run_tache_aux c t).1.events_queue = c.events_queue
    ∧ (run_tache_aux c t).1.emis = c.emis
    ∧ (run_tache_aux c t).1.fours = c.fours
    ∧ (run_tache_aux c t).1.commandes = c.commandes
    ∧ (run_tache_aux c t).2 = { t with pc := 8 }
    ∧ ∀ c2 : Cuisine, run_tache_aux c2 { t with pc := 8 } = (c2, { t with pc := 8 }) := by
  rw [run_tache_aux_vanished h7 hnone]
  refine ⟨rfl, rfl, rfl, rfl, rfl, rfl, ?_⟩
  intro c2
  exact run_tache_aux_done (le_refl 8)

/-- C9 witness: a thread whose order is absent, with stages remaining,
    leaves the initial state untouched. -/
theorem C9_vanished_order_silent_witness :
    (run_tache_aux cuisineInit
      { commande_id := "CMD-0001", four_id := "four_1", recette := "flan_vanille",
        debut := 0, pc := 3 }).1 = cuisineInit := by
  exact (C9_vanished_order_silent cuisineInit
    { commande_id := "CMD-0001", four_id := "four_1", recette := "flan_vanille",
      debut := 0, pc := 3 } (by decide) (by decide)).1

/-- C9 counterexample: if the order is removed after the last stage's
    defensive check (during the final simulated sleep), the thread does not
    exit silently: its completion block still emits a `termine` event and
    resets the bound oven, contradicting the claim that a removed order's
    thread emits no further events and does not touch the resource. -/
theorem C9_vanished_order_counterexample :
    dictGet etatRetire.commandes "CMD-0001" = none
    ∧ etatRetire.taches
      = [{ commande_id := "CMD-0001", four_id := "four_1", recette := "flan_vanille",
           debut := 0, pc := 7 }]
    ∧ (dictGet etatRetire.fours "four_1").map Four.statut = some "cuisson"
    ∧ etatApresRetrait.events_queue.length = etatRetire.events_queue.length + 1
    ∧ (etatApresRetrait.emis.getLast?).map Event.type = some "termine"
    ∧ (dictGet etatApresRetrait.fours "four_1").map Four.statut = some "disponible"
    ∧ (dictGet etatApresRetrait.fours "four_1").map Four.commande_en_cours = some none := by
  exact ⟨by decide, by decide, by decide, by decide, by decide, by decide, by decide⟩

/-- C2 (amended): over any execution, each order's `progression` is
    non-decreasing, the terminal status `termine` always shows progression
    exactly 100, and `progression = 100` holds exactly when the order's
    status is `demoulage` (the last pipeline stage, whose checkpoint is
    already 100 and which is held for a 0.4 s sleep before the completion
    block) or `termine`.  The unamended biconditional (100 iff terminal)
    fails; see the counterexample. -/
theorem C2_progress_monotone_terminal (c c' : Cuisine) (hc : Reachable c)
    (hcc : Relation.ReflTransGen Step c c') :
    (∀ (k : String) (cmd cmd' : Commande), dictGet c.commandes k = some cmd →
        dictGet c'.commandes k = some cmd' → cmd.progression ≤ cmd'.progression)
    ∧ (∀ (k : String) (cmd : Commande), dictGet c.commandes k = some cmd →
        (cmd.statut = "termine" → cmd.progression = 100)
        ∧ (cmd.progression = 100 ↔ (cmd.statut = "demoulage" ∨ cmd.statut = "termine"))) := by
  constructor
  · intro k cmd cmd' h1 h2
    exact prog_mono_reach hc hcc h1 h2
  · intro k cmd h1
    have hI := kitchenInv_reachable hc
    have hkmem : k ∈ c.commandes.map Prod.fst :=
      List.mem_map.mpr ⟨(k, cmd), mem_of_dictGet h1, rfl⟩
    rw [hI.cmdKeys, ← hI.tacheIds] at hkmem
    rcases List.mem_map.mp hkmem with ⟨t, htm, htk⟩
    rcases hI.link t htm with ⟨hpc, cmdL, hgetL, hprogL, hstatL, hetapL⟩
    rw [htk] at hgetL
    have hck : cmdL = cmd := Option.some.inj (hgetL.symm.trans h1)
    subst hck
    have hterm100 : cmdL.statut = "termine" → cmdL.progression = 100 := by
      intro hterm
      have hpc8 : t.pc = 8 := by
        by_contra hne
        have hle : t.pc ≤ 7 := by omega
        have hne' : statutAt t.pc ≠ "termine" := by
          interval_cases t.pc <;> decide
        rw [hstatL] at hterm
        exact hne' hterm
      rw [hprogL, hpc8]
      rfl
    have hdem100 : cmdL.statut = "demoulage" → cmdL.progression = 100 := by
      intro hdem
      have hpc7 : t.pc = 7 := by
        by_contra hne
        rw [hstatL] at hdem
        rcases Nat.lt_or_ge t.pc 7 with hlt | hge
        · have hne' : statutAt t.pc ≠ "demoulage" := by
            interval_cases t.pc <;> decide
          exact hne' hdem
        · have h8 : t.pc = 8 := by omega
          rw [h8] at hdem
          exact absurd hdem (by decide)
      rw [hprogL, hpc7]
      rfl
    refine ⟨hterm100, ⟨?_, ?_⟩⟩
    · intro h100
      rw [hprogL] at h100
      rw [hstatL]
      have hor : t.pc = 7 ∨ t.pc = 8 := by
        by_contra hcon
        push_neg at hcon
        have h6 : t.pc ≤ 6 := by omega
        have hne' : progAt t.pc ≠ 100 := by
          interval_cases t.pc <;> decide
        exact hne' h100
      rcases hor with h77 | h88
      · left
        rw [h77]
        rfl
      · right
        rw [h88]
        rfl
    · rintro (hdem | hterm)
      · exact hdem100 hdem
      · exact hterm100 hterm

/-- C2 witness: along the execution that submits order `CMD-0001` and runs
    its pipeline to the final stage, the order's progression only grows:
    it is 0 at submission and 100 at the last stage. -/
theorem C2_progress_monotone_terminal_witness :
    ({ id := "CMD-0001", recette := "flan_vanille", portions := 1, options := [],
       four_id := "four_1", statut := "en_preparation", progression := 0, etapes := [],
       debut := 0, fin := none } : Commande).progression
      ≤ ({ id := "CMD-0001", recette := "flan_vanille", portions := 1, options := [],
           four_id := "four_1", statut := "demoulage", progression := 100,
           etapes :=
             [{ id := "rassemblement_ingredients", description := "📦 Rassemblement des ingrédients", timestamp := 1 },
              { id := "caramelisation", description := "🍯 Caramélisation du moule", timestamp := 2 },
              { id := "melange_appareil", description := "🥣 Mélange de l\x27appareil", timestamp := 3 },
              { id := "versement", description := "🫗 Versement dans le moule", timestamp := 4 },
              { id := "cuisson", description := "🔥 Cuisson au bain-marie", timestamp := 5 },
              { id := "refroidissement", description := "❄️ Refroidissement", timestamp := 6 },
              { id := "demoulage", description := "🍽️ Démoulage", timestamp := 7 }],
           debut := 0, fin := none } : Commande).progression := by
  exact (C2_progress_monotone_terminal etatCommande etatDemoulage reach_etatCommande
    rtg_commande_to_demoulage).1 "CMD-0001" _ _ (by decide) (by decide)

/-- C2 counterexample: in the reachable state where order `CMD-0001` has run
    its last stage but its thread has not yet executed the completion block
    (the program sleeps 0.4 s there), the observed progression is exactly 100
    while the observed status is `demoulage`, not the terminal `termine` —
    refuting `progressPercent = 100 iff stage = complete`. -/
theorem C2_progress_counterexample :
    Reachable etatDemoulage
    ∧ (dictGet etatDemoulage.commandes "CMD-0001").map Commande.progression = some 100
    ∧ (dictGet etatDemoulage.commandes "CMD-0001").map Commande.statut = some "demoulage"
    ∧ "demoulage" ≠ "termine" := by
  exact ⟨reach_etatDemoulage, by decide, by decide, by decide⟩

/-- C3 (amended): the event stream is a single shared FIFO queue, not a
    per-subscriber fan-out.  Publishing appends exactly one entry to the
    queue and always succeeds (the queue is unbounded, so the publisher
    never blocks on slow or absent subscribers); a subscriber's blocking
    get delivers the queue head and removes it, so each published event is
    delivered to exactly one subscriber; a get on an empty queue yields a
    synthetic heartbeat; and an event no longer in the queue is never
    delivered again in any continuation of the execution.  The unamended
    claim (every subscriber receives every event) fails; see the
    counterexample. -/
theorem C3_queue_delivery (c : Cuisine) :
    (∀ (ty : String) (d : EventData),
        (ajouter_event c ty d).events_queue
          = c.events_queue ++ [{ type := ty, data := d, timestamp := c.now }])
    ∧ (∀ (e : Event) (rest : List Event), c.events_queue = e :: rest →
        (sse_get c).1 = e ∧ (sse_get c).2.events_queue = rest)
    ∧ (c.events_queue = [] → (sse_get c).1.type = "heartbeat" ∧ (sse_get c).2 = c)
    ∧ (∀ (e : Event) (c' : Cuisine), e ∉ c.events_queue → e.timestamp < c.now →
        Relation.ReflTransGen Step c c' → e ∉ c'.events_queue) := by
  refine ⟨?_, ?_, ?_, ?_⟩
  · intro ty d
    exact ajouter_event_queue c ty d
  · intro e rest h
    rw [sse_get_cons h]
    exact ⟨rfl, rfl⟩
  · intro h
    rw [sse_get_empty h]
    exact ⟨rfl, rfl⟩
  · intro e c' hnot hts hcc
    exact event_lost_reach hcc hnot hts

/-- C3 witness: in the state reached by one submission the queue holds the
    `commande` event; the first subscriber get delivers it and empties the
    queue. -/
theorem C3_queue_delivery_witness :
    etatCommande.events_queue
      = [{ type := "commande", data := .commandeE "CMD-0001" "flan_vanille", timestamp := 0 }]
    ∧ (sse_get etatCommande).1
      = { type := "commande", data := .commandeE "CMD-0001" "flan_vanille", timestamp := 0 }
    ∧ (sse_get etatCommande).2.events_queue = [] := by
  have h := (C3_queue_delivery etatCommande).2.1
    { type := "commande", data := .commandeE "CMD-0001" "flan_vanille", timestamp := 0 } []
    (by decide)
  exact ⟨by decide, h.1, h.2⟩

/-- C3 counterexample: with two concurrent subscribers, the `commande` event
    published while both are subscribed is delivered only to the subscriber
    whose get pops it first; the second subscriber's get returns a heartbeat
    and the event is gone from the delivery queue — refuting delivery of
    every event to every live subscriber. -/
theorem C3_queue_delivery_counterexample :
    (sse_get etatCommande).1.type = "commande"
    ∧ (sse_get (sse_get etatCommande).2).1.type = "heartbeat"
    ∧ (sse_get (sse_get etatCommande).2).2 = (sse_get etatCommande).2
    ∧ ({ type := "commande", data := .commandeE "CMD-0001" "flan_vanille",
         timestamp := 0 } : Event) ∉ (sse_get etatCommande).2.events_queue := by
  exact ⟨by decide, by decide, by decide, by decide⟩

/-- C4 (amended): for every limit of at least 1, the history endpoint
    returns exactly the `min limit length` most recent history entries, in
    emission order; with the reachable-state bound of 100 on the history it
    never returns more than `min limit 100` entries, and the result is a
    suffix of the history and of the full emission sequence.  The unamended
    "for every integer limit" fails at `limit = 0` (Python's `l[-0:]` is the
    whole list); see the counterexample. -/
theorem C4_historique_limit (c : Cuisine) (hc : Reachable c) (limit : Int) (hl : 1 ≤ limit) :
    (historiqueEndpoint c limit).length = min limit.toNat c.historique.length
    ∧ (historiqueEndpoint c limit).length ≤ min limit.toNat 100
    ∧ historiqueEndpoint c limit <:+ c.historique
    ∧ historiqueEndpoint c limit <:+ c.emis := by
  have hI := kitchenInv_reachable hc
  have hneg : -limit < 0 := by omega
  have hend : historiqueEndpoint c limit
      = c.historique.drop (c.historique.length - min c.historique.length limit.toNat) := by
    unfold historiqueEndpoint pySliceFrom
    rw [if_pos hneg, neg_neg]
  have hlen : (historiqueEndpoint c limit).length = min limit.toNat c.historique.length := by
    rw [hend, List.length_drop]
    have hle := Nat.min_le_left c.historique.length limit.toNat
    rw [Nat.min_comm]
    omega
  refine ⟨hlen, ?_, ?_, ?_⟩
  · rw [hlen]
    refine Nat.le_min.mpr ⟨Nat.min_le_left _ _, ?_⟩
    exact le_trans (Nat.min_le_right _ _) hI.histLen
  · rw [hend]
    exact List.drop_suffix _ _
  · rw [hend]
    exact List.IsSuffix.trans (List.drop_suffix _ _) hI.histSuffix

/-- C4 witness: with limit 3 and a single-event history, the endpoint
    returns exactly that one event. -/
theorem C4_historique_limit_witness :
    (1 : Int) ≤ 3
    ∧ (historiqueEndpoint etatPrechauffe 3).length
        = min (3 : Int).toNat etatPrechauffe.historique.length
    ∧ historiqueEndpoint etatPrechauffe 3 <:+ etatPrechauffe.historique := by
  have h := C4_historique_limit etatPrechauffe reach_etatPrechauffe 3 (by decide)
  exact ⟨by decide, h.1, h.2.2.1⟩

/-- C4 counterexample: at `limit = 0` the endpoint evaluates
    `historique[-0:]`, which is the whole history, so in a reachable state
    with one event it returns 1 entry although `min(limit, 100) = 0` —
    refuting the bound for every integer limit. -/
theorem C4_historique_limit_counterexample :
    Reachable etatPrechauffe
    ∧ etatPrechauffe.historique.length = 1
    ∧ historiqueEndpoint etatPrechauffe 0 = etatPrechauffe.historique
    ∧ (historiqueEndpoint etatPrechauffe 0).length = 1
    ∧ min ((0 : Int)).toNat 100 = 0 := by
  exact ⟨reach_etatPrechauffe, by decide, by decide, by decide, by decide⟩

/-- C5 (amended): when the caller specifies an oven id that exists in the
    pool, the oven must currently be `pret` (reserved) or `disponible`
    (idle), else the submission fails with `FOUR_OCCUPE` (ResourceNotReady)
    and no order is created; when the caller specifies no oven — or, contrary
    to the unamended claim, an id that is not in the pool — the handler falls
    back to auto-selection, which fails with `CUISINE_FERMEE`
    (NoResourceAvailable) when no oven is `disponible` and otherwise creates
    the order on the first available oven.  See the counterexample for the
    unknown-id fallback. -/
theorem C5_resource_resolution (c : Cuisine) (hc : Reachable c) (r : String)
    (portions : Nat) (options : List (String × String))
    (hr : (dictGet recettes r).isSome = true) :
    (∀ fid f, dictGet c.fours fid = some f → f.statut ≠ "pret" → f.statut ≠ "disponible" →
        commander c r (some fid) portions options = (.fourOccupe fid, c))
    ∧ (trouver_four_disponible c = none →
        commander c r none portions options = (.cuisineFermee, c))
    ∧ (∀ fid, dictGet c.fours fid = none → trouver_four_disponible c = none →
        commander c r (some fid) portions options = (.cuisineFermee, c))
    ∧ (∀ fid2, trouver_four_disponible c = some fid2 →
        (commander c r none portions options).1
          = .flanCree (mkId (c.compteur_commandes + 1)) fid2)
    ∧ (∀ fid fid2, dictGet c.fours fid = none → trouver_four_disponible c = some fid2 →
        (commander c r (some fid) portions options).1
          = .flanCree (mkId (c.compteur_commandes + 1)) fid2) := by
  rcases Option.isSome_iff_exists.mp hr with ⟨rec, hrec⟩
  refine ⟨?_, ?_, ?_, ?_, ?_⟩
  · intro fid f hf h1 h2
    refine commander_notReady hrec ?_ hf h1 h2 portions options
    rw [resoudre_four_some, if_pos (show (dictGet c.fours fid).isSome = true from by rw [hf]; rfl)]
  · intro htr
    exact commander_noFour hrec (by rw [resoudre_four_none]; exact htr) portions options
  · intro fid hf htr
    refine commander_noFour hrec ?_ portions options
    rw [resoudre_four_some, if_neg (show ¬(dictGet c.fours fid).isSome = true from by rw [hf]; simp)]
    exact htr
  · intro fid2 htr
    rcases trouver_dictGet (kitchenInv_reachable hc) htr with ⟨f2, hf2, hd2⟩
    rw [commander_ok hrec (by rw [resoudre_four_none]; exact htr) hf2 (Or.inr hd2) portions options]
  · intro fid fid2 hf htr
    rcases trouver_dictGet (kitchenInv_reachable hc) htr with ⟨f2, hf2, hd2⟩
    have hres : resoudre_four c (some fid) = some fid2 := by
      rw [resoudre_four_some,
        if_neg (show ¬(dictGet c.fours fid).isSome = true from by rw [hf]; simp)]
      exact htr
    rw [commander_ok hrec hres hf2 (Or.inr hd2) portions options]

/-- C5 witness: from the initial state, a submission naming the unknown oven
    `four_99` is accepted through auto-selection and bound to `four_1`. -/
theorem C5_resource_resolution_witness :
    (commander cuisineInit "flan_vanille" (some "four_99") 1 []).1
      = .flanCree (mkId 1) "four_1" := by
  exact (C5_resource_resolution cuisineInit Relation.ReflTransGen.refl "flan_vanille" 1 []
    (by decide)).2.2.2.2 "four_99" "four_1" (by decide) (by decide)

/-- C5 counterexample: the caller-specified oven id `four_99` does not exist
    in the pool (so it is neither idle nor reserved), yet the submission does
    not fail with ResourceNotReady: it silently falls back to auto-selection,
    creates order `CMD-0001` and binds it to `four_1` — refuting "only when
    the caller specifies no resource does the engine fall back to
    auto-reservation". -/
theorem C5_resource_resolution_counterexample :
    dictGet cuisineInit.fours "four_99" = none
    ∧ (commander cuisineInit "flan_vanille" (some "four_99") 1 []).1
        = .flanCree "CMD-0001" "four_1"
    ∧ dictGet (commander cuisineInit "flan_vanille" (some "four_99") 1 []).2.commandes
        "CMD-0001" ≠ none := by
  exact ⟨by decide, by decide, by decide⟩

/-- C6 (amended): every order's pipeline walks the fixed stage list strictly
    in order, each stage exactly once (the visited stage ids are always a
    prefix of the duplicate-free fixed list), with the fixed progress
    checkpoints 10/25/50/60/85/95/100; but the simulated durations are a
    fixed global table, identical for every recipe — they are not taken from
    the order's recipe's stage table (see the counterexample). -/
theorem C6_pipeline_stages (c : Cuisine) (hc : Reachable c) :
    stageIds = ["rassemblement_ingredients", "caramelisation", "melange_appareil", "versement",
      "cuisson", "refroidissement", "demoulage"]
    ∧ checkpoints = [10, 25, 50, 60, 85, 95, 100]
    ∧ stageIds.Nodup
    ∧ (∀ r1 r2 : String, pipelineDurations r1 = pipelineDurations r2)
    ∧ ∀ t ∈ c.taches, ∃ cmd, dictGet c.commandes t.commande_id = some cmd
        ∧ cmd.etapes.map Etape.id = stageIds.take (min t.pc 7)
        ∧ cmd.progression = progAt t.pc
        ∧ cmd.statut = statutAt t.pc := by
  refine ⟨by decide, by decide, by decide, fun r1 r2 => rfl, ?_⟩
  intro t ht
  rcases (kitchenInv_reachable hc).link t ht with ⟨hpc, cmd, hget, h1, h2, h3⟩
  exact ⟨cmd, hget, h3, h1, h2⟩

/-- C6 witness: after the seven stage quanta of order `CMD-0001`, its visited
    stage list is exactly the full fixed stage sequence, in order. -/
theorem C6_pipeline_stages_witness :
    (dictGet etatDemoulage.commandes "CMD-0001").map (fun cmd => cmd.etapes.map Etape.id)
      = some (stageIds.take 7) := by
  have h := (C6_pipeline_stages etatDemoulage reach_etatDemoulage).2.2.2.2
    { commande_id := "CMD-0001", four_id := "four_1", recette := "flan_vanille",
      debut := 0, pc := 7 } (by decide)
  rcases h with ⟨cmd, hget, h3, _, _⟩
  rw [hget]
  show some (cmd.etapes.map Etape.id) = some (stageIds.take 7)
  rw [h3]
  rfl

/-- C6 counterexample: the recipes `flan_vanille` and `flan_chocolat` have
    different stage tables (40 min at 150° versus 50 min at 160°), yet the
    pipeline simulates both with the identical hard-coded duration list
    0.5/0.8/0.6/0.3/1.5/0.7/0.4 s (here in tenths of a second);
    `simuler_cuisson` never consults the recipe's stage table, refuting
    "each stage's simulated duration taken from the order's recipe's stage
    table ... deterministic per recipe". -/
theorem C6_pipeline_stages_counterexample :
    pipelineDurations "flan_vanille" = pipelineDurations "flan_chocolat"
    ∧ (dictGet recettes "flan_vanille").map (fun rec => rec.cuisson)
        ≠ (dictGet recettes "flan_chocolat").map (fun rec => rec.cuisson)
    ∧ (dictGet recettes "flan_vanille").map (fun rec => rec.cuisson.duree) = some "40min"
    ∧ (dictGet recettes "flan_chocolat").map (fun rec => rec.cuisson.duree) = some "50min"
    ∧ pipelineDurations "flan_vanille" = [5, 8, 6, 3, 15, 7, 4] := by
  exact ⟨rfl, by decide, by decide, by decide, by decide⟩
